import Mathlib

/-!
Verification development for `image_projection.cc` of apollo-lego-loam
(`apollo::tools::ImageProjection`).

The C++ code is shallowly embedded below.  Conventions:

* C++ `float`/`double` arithmetic is modelled by exact real numbers `ℝ`;
  `std::atan2`, `sin`, `cos`, `sqrt`, `round` are modelled by their exact
  real counterparts (`atan2` is defined piecewise from `Real.arctan`
  following the C standard).
* `size_t` casts are modelled by truncation toward zero followed by a
  2^64 wrap of negative integral values (the behaviour the code relies
  on for its unsigned upper-bound checks).
* the `cv::Mat` grids (`range_mat`, `ground_mat`, `label_mat`) are
  modelled as total functions `ℕ → ℕ → _`; `pcl::PointCloud` buffers are
  lists; the fixed N_SCAN*HORIZON_SCAN `full_cloud`/`full_info_cloud`
  arrays are functions from the linear index `col + row * cols`, with
  `none` standing for the `nan_point` sentinel.
* the configuration constants of `utility.h` (not part of this source
  tree: `N_SCAN`, `HORIZON_SCAN`, `groundScanInd`, `ang_bottom`,
  `ang_res_x/y`, `segmentAlphaX/Y`, `segmentTheta`,
  `segmentValidPointNum`, `segmentValidLineNum`, the `FLAGS_*` values)
  are kept as parameters, following the spec's description of them as
  fixed per-deployment configuration.  `FLAGS_use_cloud_ring` is taken
  to be false (geometric row computation), the path all properties below
  concern.
-/

namespace ApolloLegoLoam

open Real

/-- C `atan2(y, x)`, modelled exactly: the angle of the point `(x, y)`
in `(-π, π]`, written piecewise with `Real.arctan`. -/
noncomputable def atan2 (y x : ℝ) : ℝ :=
  if 0 < x then Real.arctan (y / x)
  else if x < 0 ∧ 0 ≤ y then Real.arctan (y / x) + π
  else if x < 0 ∧ y < 0 then Real.arctan (y / x) - π
  else if 0 < y then π / 2
  else if y < 0 then -(π / 2)
  else 0

theorem atan2_of_pos (y x : ℝ) (hx : 0 < x) : atan2 y x = Real.arctan (y / x) := by
  simp [atan2, hx]

theorem atan2_zero_one : atan2 0 1 = 0 := by
  rw [atan2_of_pos 0 1 one_pos]
  simp [Real.arctan_zero]

theorem atan2_zero_neg_one : atan2 0 (-1) = π := by
  have h1 : ¬ (0:ℝ) < -1 := by norm_num
  have h2 : (-1:ℝ) < 0 ∧ (0:ℝ) ≤ 0 := by norm_num
  simp only [atan2, if_neg h1, if_pos h2]
  norm_num [Real.arctan_zero]

theorem atan2_neg_one_one : atan2 (-1) 1 = -(π / 4) := by
  rw [atan2_of_pos (-1) 1 one_pos]
  norm_num [Real.arctan_neg, Real.arctan_one]

theorem atan2_one_zero : atan2 1 0 = π / 2 := by
  norm_num [atan2]

/-- A lidar return: `PointType` (pcl `PointXYZI`). -/
structure Pt where
  x : ℝ
  y : ℝ
  z : ℝ
  intensity : ℝ

/-- Source constant `static constexpr int LABEL_INVALID = 999999;`. -/
def LABEL_INVALID : ℤ := 999999

/-- Source constant `static constexpr int LABEL_INIT = 0;`. -/
def LABEL_INIT : ℤ := 0

/-- The largest finite `float`, the empty-cell sentinel `FLT_MAX` of
`range_mat`, as an exact real. -/
noncomputable def FLT_MAX : ℝ := 2 ^ 128 - 2 ^ 104

/-- Pointwise update of a 2-d grid at cell `p`. -/
def set2 {α : Type} (m : ℕ → ℕ → α) (p : ℕ × ℕ) (v : α) : ℕ → ℕ → α :=
  fun a b => if a = p.1 ∧ b = p.2 then v else m a b

/-- Pointwise update of a linear array. -/
def set1 {α : Type} (m : ℕ → α) (i : ℕ) (v : α) : ℕ → α :=
  fun a => if a = i then v else m a

theorem set2_same {α : Type} (m : ℕ → ℕ → α) (p : ℕ × ℕ) (v : α) :
    set2 m p v p.1 p.2 = v := by
  simp [set2]

theorem set2_other {α : Type} (m : ℕ → ℕ → α) (p : ℕ × ℕ) (v : α) (a b : ℕ)
    (h : ¬(a = p.1 ∧ b = p.2)) : set2 m p v a b = m a b := by
  simp only [set2, if_neg h]

/-!
## Configuration

Modelled from the spec: the per-deployment constants of `utility.h`
(row/column counts, vertical FOV bottom and per-row resolution,
horizontal resolution, minimum sensor range, mount angle, ground
candidate row count, segmentation threshold and per-axis angular
increments, minimum cluster cell/line counts), which is not part of this
source tree.
-/
structure Config where
  nScan : ℕ            -- N_SCAN (rows)
  horizonScan : ℕ      -- HORIZON_SCAN (cols)
  angBottom : ℝ        -- ang_bottom (degrees)
  angResX : ℝ          -- ang_res_x (degrees)
  angResY : ℝ          -- ang_res_y (degrees)
  minRange : ℝ         -- FLAGS_sensor_minimum_range
  mountAngle : ℝ       -- FLAGS_sensor_mount_angle (degrees)
  groundScanInd : ℕ    -- groundScanInd
  segmentAlphaX : ℝ    -- segmentAlphaX (radians, horizontal increment)
  segmentAlphaY : ℝ    -- segmentAlphaY (radians, vertical increment)
  segmentTheta : ℝ     -- segmentTheta (radians)
  segmentValidPointNum : ℕ
  segmentValidLineNum : ℕ

/-!
## Range image builder (`ProjectPointCloud`)
-/

/-- Truncation toward zero of a real, the integral value produced by a
C floating-to-integer conversion. -/
noncomputable def truncInt (x : ℝ) : ℤ :=
  if 0 ≤ x then ⌊x⌋ else ⌈x⌉

/-- Conversion of an integral value to `size_t`: in-range values are
kept, negative values wrap modulo `2^64` (the unsigned-wrap behaviour
the upper-bound checks of `ProjectPointCloud` rely on). -/
def sizeTofInt (n : ℤ) : ℕ := (n % (2 ^ 64 : ℤ)).toNat

/-- C cast of a floating value to `size_t`. -/
noncomputable def sizeT (x : ℝ) : ℕ := sizeTofInt (truncInt x)

/-- C `round`: to nearest, halfway cases away from zero, as a real. -/
noncomputable def roundC (x : ℝ) : ℝ :=
  if 0 ≤ x then (⌊x + 1 / 2⌋ : ℤ) else ((-⌊-x + 1 / 2⌋ : ℤ) : ℝ)

/-- Source expression `vertical_angle = atan2(z, sqrt(x*x + y*y)) * 180 / M_PI`. -/
noncomputable def verticalAngleDeg (p : Pt) : ℝ :=
  atan2 p.z (Real.sqrt (p.x * p.x + p.y * p.y)) * 180 / π

/-- The real-valued row bucket `(vertical_angle + ang_bottom) / ang_res_y`
that the code converts to the `size_t` `row_idn`. -/
noncomputable def rowBucket (cfg : Config) (p : Pt) : ℝ :=
  (verticalAngleDeg p + cfg.angBottom) / cfg.angResY

/-- Source expression `horizon_angle = atan2(x, y) * 180 / M_PI`. -/
noncomputable def horizonAngleDeg (p : Pt) : ℝ :=
  atan2 p.x p.y * 180 / π

/-- The integral column value `-round((horizon_angle - 90)/ang_res_x)
+ HORIZON_SCAN/2` that the code converts to the `size_t` `column_idn`. -/
noncomputable def colBucket (cfg : Config) (p : Pt) : ℝ :=
  -roundC ((horizonAngleDeg p - 90) / cfg.angResX) + (cfg.horizonScan / 2 : ℕ)

/-- Source expression `range = sqrt(x*x + y*y + z*z)`. -/
noncomputable def rangeOf (p : Pt) : ℝ :=
  Real.sqrt (p.x * p.x + p.y * p.y + p.z * p.z)

/-- The per-point body of `ProjectPointCloud` (geometric row path):
either the point is discarded (`none`) by one of the three `continue`
guards, or it is written to row/column/range `some (row, col, range)`. -/
noncomputable def projectPoint (cfg : Config) (p : Pt) : Option (ℕ × ℕ × ℝ) :=
  let row_idn := sizeT (rowBucket cfg p)
  if cfg.nScan ≤ row_idn then none
  else
    let column_idn₀ := sizeT (colBucket cfg p)
    let column_idn := if cfg.horizonScan ≤ column_idn₀ then
        column_idn₀ - cfg.horizonScan else column_idn₀
    if cfg.horizonScan ≤ column_idn then none
    else
      let range := rangeOf p
      if range < cfg.minRange then none
      else some (row_idn, column_idn, range)

/-!
## Frame state

The frame-scoped members of `ImageProjection`.  `none` in
`fullCloud`/`fullInfoCloud` is the `nan_point` sentinel; clouds are
append-only lists of the pushed slots (`Option Pt`, since the code can
push `nan_point` slots).
-/
structure FrameState where
  laserCloudIn : List Pt
  laserCloudInRing : List Pt
  rangeMat : ℕ → ℕ → ℝ
  groundMat : ℕ → ℕ → ℤ
  labelMat : ℕ → ℕ → ℤ
  labelCount : ℤ
  fullCloud : ℕ → Option Pt
  fullInfoCloud : ℕ → Option Pt
  groundCloud : List (Option Pt)
  segmentedCloud : List (Option Pt)
  segmentedCloudPure : List (Option Pt × ℤ)
  outlierCloud : List (Option Pt)
  segGroundFlag : List Bool
  segColInd : List ℕ
  segRange : List ℝ
  startRingIndex : ℕ → ℤ
  endRingIndex : ℕ → ℤ

/-- The per-point loop body of `ProjectPointCloud`: a discarded point
writes nothing; a kept point writes its range into `range_mat`, the
row/col-encoded point into `full_cloud` and the range-intensity point
into `full_info_cloud`, at linear index `column_idn + row_idn * HORIZON_SCAN`. -/
noncomputable def projStep (cfg : Config) (s : FrameState) (p : Pt) : FrameState :=
  match projectPoint cfg p with
  | none => s
  | some (row_idn, column_idn, range) =>
      let p' : Pt := { p with intensity := (row_idn : ℝ) + (column_idn : ℝ) / 10000 }
      let index := column_idn + row_idn * cfg.horizonScan
      { s with
        rangeMat := set2 s.rangeMat (row_idn, column_idn) range
        fullCloud := set1 s.fullCloud index (some p')
        fullInfoCloud := set1 s.fullInfoCloud index (some { p' with intensity := range }) }

/-- Method `ProjectPointCloud`. -/
noncomputable def projectPointCloud (cfg : Config) (s : FrameState) : FrameState :=
  s.laserCloudIn.foldl (projStep cfg) s

/-!
## Ground classifier (`GroundRemoval`)
-/

/-- The body of the `GroundRemoval` slope loop for the column-`j`,
row-pair `(i, i+1)` examination. -/
noncomputable def groundStep (cfg : Config) (fc : ℕ → Option Pt)
    (gm : ℕ → ℕ → ℤ) (ij : ℕ × ℕ) : ℕ → ℕ → ℤ :=
  let i := ij.1
  let j := ij.2
  let lowerInd := j + i * cfg.horizonScan
  let upperInd := j + (i + 1) * cfg.horizonScan
  match fc lowerInd, fc upperInd with
  | some lower, some upper =>
      let diffx := upper.x - lower.x
      let diffy := upper.y - lower.y
      let diffz := upper.z - lower.z
      let angle := atan2 diffz (Real.sqrt (diffx * diffx + diffy * diffy)) * 180 / π
      if |angle - cfg.mountAngle| ≤ 10 then set2 (set2 gm (i, j) 1) (i + 1, j) 1
      else gm
  | _, _ => set2 gm (i, j) (-1)

/-- Row-major list of cells `(i, j)` for `i < rows`, `j < cols`. -/
def cellsOf (rows cols : ℕ) : List (ℕ × ℕ) :=
  ((List.range rows).map (fun i => (List.range cols).map (fun j => (i, j)))).flatten

/-- First pass of `GroundRemoval`: slope analysis over the
ground-candidate row pairs, row-major. -/
noncomputable def groundPhase1 (cfg : Config) (fc : ℕ → Option Pt)
    (gm : ℕ → ℕ → ℤ) : ℕ → ℕ → ℤ :=
  (cellsOf cfg.groundScanInd cfg.horizonScan).foldl (groundStep cfg fc) gm

/-- Second pass of `GroundRemoval`: every ground or empty cell is
pre-excluded in `label_mat` with `-1`. -/
noncomputable def groundPhase2 (cfg : Config) (gm : ℕ → ℕ → ℤ)
    (rm : ℕ → ℕ → ℝ) (lm : ℕ → ℕ → ℤ) : ℕ → ℕ → ℤ :=
  fun i j =>
    if i < cfg.nScan ∧ j < cfg.horizonScan ∧ (gm i j = 1 ∨ rm i j = FLT_MAX)
    then -1 else lm i j

/-- Third pass of `GroundRemoval`: the ground cloud collects every
ground cell of rows `0..groundScanInd` (inclusive), row-major. -/
def groundPhase3 (cfg : Config) (gm : ℕ → ℕ → ℤ) (fc : ℕ → Option Pt) :
    List (Option Pt) :=
  (cellsOf (cfg.groundScanInd + 1) cfg.horizonScan).filterMap
    (fun ij => if gm ij.1 ij.2 = 1 then some (fc (ij.2 + ij.1 * cfg.horizonScan)) else none)

/-- Method `GroundRemoval`. -/
noncomputable def groundRemoval (cfg : Config) (s : FrameState) : FrameState :=
  let gm := groundPhase1 cfg s.fullCloud s.groundMat
  { s with
    groundMat := gm
    labelMat := groundPhase2 cfg gm s.rangeMat s.labelMat
    groundCloud := s.groundCloud ++ groundPhase3 cfg gm s.fullCloud }

/-!
## Region-growing segmenter (`LabelComponents`)

The BFS is kept parametric in the per-edge admission test `adm`
(current cell, candidate neighbor, direction); `admitOf` instantiates it
with the angular test of the source.  In the source the `queue_ind*` and
`all_pushed_ind*` arrays receive exactly the same cells in the same
order, so one list `pushed` plus the moving cursor `start`
(`queue_start_ind`) represents both; `queue_end_ind` and
`all_pushed_ind_size` are `pushed.length`.
-/

/-- A grid cell (row, column). -/
abbrev Cell := ℕ × ℕ

/-- Source constant `static constexpr int8_t dirs` of the four steps up, right, left, down. -/
def dirs : List (ℤ × ℤ) := [(-1, 0), (0, 1), (0, -1), (1, 0)]

/-- Neighbor generation of `LabelComponents`: a row step outside
`[0, rows)` yields no neighbor, a column step wraps circularly by the
two single corrections of the source. -/
def neighborOf (rows cols : ℕ) (p : Cell) (d : ℤ × ℤ) : Option Cell :=
  let thisX : ℤ := (p.1 : ℤ) + d.1
  let thisY : ℤ := (p.2 : ℤ) + d.2
  if thisX < 0 ∨ (rows : ℤ) ≤ thisX then none
  else
    let wrapY : ℤ := if thisY < 0 then (cols : ℤ) - 1
      else if (cols : ℤ) ≤ thisY then 0 else thisY
    some (thisX.toNat, wrapY.toNat)

/-- The state of one flood fill. -/
structure BfsState where
  lm : ℕ → ℕ → ℤ
  pushed : List Cell
  start : ℕ
  lineFlag : ℕ → Bool

/-- Examination of one candidate neighbor (the body of the `dirs` loop
of `LabelComponents`): bounds/wrap, the `label == LABEL_INIT` guard,
then the admission test; on admission the neighbor is enqueued, labeled
with the current segment id and its row flagged. -/
def tryAdmit (rows cols : ℕ) (adm : Cell → Cell → ℤ × ℤ → Bool) (lc : ℤ)
    (cur : Cell) (st : BfsState) (d : ℤ × ℤ) : BfsState :=
  match neighborOf rows cols cur d with
  | none => st
  | some nb =>
      if st.lm nb.1 nb.2 ≠ LABEL_INIT then st
      else if adm cur nb d then
        { st with
          lm := set2 st.lm nb lc
          pushed := st.pushed ++ [nb]
          lineFlag := fun r => if r = nb.1 then true else st.lineFlag r }
      else st

/-- One iteration of the BFS `while` loop: pop the front cell, label it
with the current segment id, and examine its four neighbors. -/
def stepOnce (rows cols : ℕ) (adm : Cell → Cell → ℤ × ℤ → Bool) (lc : ℤ)
    (st : BfsState) : BfsState :=
  match st.pushed[st.start]? with
  | none => st
  | some cur =>
      let st1 : BfsState := { st with lm := set2 st.lm cur lc, start := st.start + 1 }
      dirs.foldl (tryAdmit rows cols adm lc cur) st1

/-- The BFS `while (queue_size > 0)` loop, fuel-based.  `rows * cols`
fuel always drains the queue (`labelBfs_complete` below). -/
def bfsRun (rows cols : ℕ) (adm : Cell → Cell → ℤ × ℤ → Bool) (lc : ℤ) :
    ℕ → BfsState → BfsState
  | 0, st => st
  | n + 1, st =>
      if st.start < st.pushed.length then
        bfsRun rows cols adm lc n (stepOnce rows cols adm lc st)
      else st

/-- The completed flood fill of `LabelComponents` seeded at `seed`. -/
def labelBfs (rows cols : ℕ) (adm : Cell → Cell → ℤ × ℤ → Bool) (lc : ℤ)
    (lm₀ : ℕ → ℕ → ℤ) (seed : Cell) : BfsState :=
  bfsRun rows cols adm lc (rows * cols)
    { lm := lm₀, pushed := [seed], start := 0, lineFlag := fun _ => false }

/-- Method `LabelComponents(row, col)`: run the flood fill, then accept
(`++label_count`) when the cluster has at least 30 cells, or at least
`segmentValidPointNum` cells on at least `segmentValidLineNum` flagged
lines; otherwise overwrite every pushed cell with `LABEL_INVALID`.
Returns the updated label map and label counter. -/
def labelComponents (rows cols : ℕ) (adm : Cell → Cell → ℤ × ℤ → Bool)
    (vpn vln : ℕ) (lm₀ : ℕ → ℕ → ℤ) (lc : ℤ) (seed : Cell) :
    (ℕ → ℕ → ℤ) × ℤ :=
  let st := labelBfs rows cols adm lc lm₀ seed
  let lineCount := (List.range rows).countP (fun i => st.lineFlag i)
  if 30 ≤ st.pushed.length ∨ (vpn ≤ st.pushed.length ∧ vln ≤ lineCount) then
    (st.lm, lc + 1)
  else
    (st.pushed.foldl (fun m p => set2 m p LABEL_INVALID) st.lm, lc)

/-- The admission test of the source: with `d2`/`d1` the min/max of the
two cell ranges and `alpha` the per-direction angular increment
(`segmentAlphaX` for a column move, `segmentAlphaY` for a row move),
accept exactly when `atan2(d2*sin(alpha), d1 - d2*cos(alpha))` exceeds
`segmentTheta`. -/
noncomputable def admitOf (rm : ℕ → ℕ → ℝ) (alphaX alphaY theta : ℝ)
    (cur nb : Cell) (d : ℤ × ℤ) : Bool :=
  let d2 := min (rm cur.1 cur.2) (rm nb.1 nb.2)
  let d1 := max (rm cur.1 cur.2) (rm nb.1 nb.2)
  let alpha := if d.1 = 0 then alphaX else alphaY
  @decide (theta < atan2 (d2 * Real.sin alpha) (d1 - d2 * Real.cos alpha))
    (Classical.propDecidable _)

/-- The seeding scan of `CloudSegmentation`: row-major over all cells,
one completed flood fill per still-unlabeled cell. -/
def cloudSegPhase1 (rows cols : ℕ) (adm : Cell → Cell → ℤ × ℤ → Bool)
    (vpn vln : ℕ) (lm₀ : ℕ → ℕ → ℤ) (lc₀ : ℤ) : (ℕ → ℕ → ℤ) × ℤ :=
  (cellsOf rows cols).foldl
    (fun acc ij =>
      if acc.1 ij.1 ij.2 = LABEL_INIT then
        labelComponents rows cols adm vpn vln acc.1 acc.2 ij
      else acc)
    (lm₀, lc₀)

/-!
## Output assembler (second and third parts of `CloudSegmentation`)
-/

/-- The assembler's running state: `size` is `size_of_seg_cloud`, the
clouds and the parallel metadata arrays grow by `push_back`. -/
structure AsmState where
  size : ℤ
  outlier : List (Option Pt)
  segmented : List (Option Pt)
  segGroundFlag : List Bool
  segColInd : List ℕ
  segRange : List ℝ
  startRingIndex : ℕ → ℤ
  endRingIndex : ℕ → ℤ

/-- The per-cell body of the assembly loop (source lines 226-245):
segment-or-ground gate, `LABEL_INVALID` outlier sampling (every fifth
column on rows beyond `groundScanInd`), ground downsampling, and the
`SegmentedCloud` push with parallel metadata. -/
def asmStep (cfg : Config) (lm gm : ℕ → ℕ → ℤ) (rm : ℕ → ℕ → ℝ)
    (fc : ℕ → Option Pt) (s : AsmState) (ij : Cell) : AsmState :=
  let i := ij.1
  let j := ij.2
  if 0 < lm i j ∨ gm i j = 1 then
    if lm i j = LABEL_INVALID then
      if cfg.groundScanInd < i ∧ j % 5 = 0 then
        { s with outlier := s.outlier ++ [fc (j + i * cfg.horizonScan)] }
      else s
    else if gm i j = 1 ∧ (j % 5 ≠ 0 ∧ 5 < j ∧ (j : ℤ) < (cfg.horizonScan : ℤ) - 5) then
      s
    else
      { s with
        size := s.size + 1
        segmented := s.segmented ++ [fc (j + i * cfg.horizonScan)]
        segGroundFlag := s.segGroundFlag ++ [decide (gm i j = 1)]
        segColInd := s.segColInd ++ [j]
        segRange := s.segRange ++ [rm i j] }
  else s

/-- One row of the assembly loop: record the ring start index, walk the
columns, record the ring end index. -/
def asmRow (cfg : Config) (lm gm : ℕ → ℕ → ℤ) (rm : ℕ → ℕ → ℝ)
    (fc : ℕ → Option Pt) (s : AsmState) (i : ℕ) : AsmState :=
  let s1 := { s with startRingIndex := set1 s.startRingIndex i (s.size - 1 + 5) }
  let s2 := (List.range cfg.horizonScan).foldl
    (fun t j => asmStep cfg lm gm rm fc t (i, j)) s1
  { s2 with endRingIndex := set1 s2.endRingIndex i (s2.size - 1 - 5) }

/-- The assembly part of `CloudSegmentation` (lines 222-248). -/
def cloudSegPhase2 (cfg : Config) (lm gm : ℕ → ℕ → ℤ) (rm : ℕ → ℕ → ℝ)
    (fc : ℕ → Option Pt) (s₀ : AsmState) : AsmState :=
  (List.range cfg.nScan).foldl (asmRow cfg lm gm rm fc) s₀

/-- The `segmented_cloud_pure` loop (lines 250-257): every positive,
non-invalid cell, paired with the segment id written into its
intensity. -/
def cloudSegPure (cfg : Config) (lm : ℕ → ℕ → ℤ) (fc : ℕ → Option Pt) :
    List (Option Pt × ℤ) :=
  (cellsOf cfg.nScan cfg.horizonScan).filterMap
    (fun ij =>
      if 0 < lm ij.1 ij.2 ∧ lm ij.1 ij.2 ≠ LABEL_INVALID then
        some (fc (ij.2 + ij.1 * cfg.horizonScan), lm ij.1 ij.2)
      else none)

/-- Method `CloudSegmentation`: seeding scan, then output assembly. -/
noncomputable def cloudSegmentation (cfg : Config) (s : FrameState) : FrameState :=
  let seg := cloudSegPhase1 cfg.nScan cfg.horizonScan
    (admitOf s.rangeMat cfg.segmentAlphaX cfg.segmentAlphaY cfg.segmentTheta)
    cfg.segmentValidPointNum cfg.segmentValidLineNum s.labelMat s.labelCount
  let asm := cloudSegPhase2 cfg seg.1 s.groundMat s.rangeMat s.fullCloud
    { size := 0
      outlier := s.outlierCloud
      segmented := s.segmentedCloud
      segGroundFlag := s.segGroundFlag
      segColInd := s.segColInd
      segRange := s.segRange
      startRingIndex := s.startRingIndex
      endRingIndex := s.endRingIndex }
  { s with
    labelMat := seg.1
    labelCount := seg.2
    outlierCloud := asm.outlier
    segmentedCloud := asm.segmented
    segGroundFlag := asm.segGroundFlag
    segColInd := asm.segColInd
    segRange := asm.segRange
    startRingIndex := asm.startRingIndex
    endRingIndex := asm.endRingIndex
    segmentedCloudPure := s.segmentedCloudPure ++ cloudSegPure cfg seg.1 s.fullCloud }

/-!
## Frame validation and the per-frame pipeline
-/

/-- The sweep orientation span of `FindStartEndAngle`: last point's
azimuth plus `2π` minus first point's azimuth (`atan2(x, y)` each). -/
noncomputable def orientationSpan (pts : List Pt) : ℝ :=
  let f := pts.head?.getD ⟨0, 0, 0, 0⟩
  let l := pts.getLast?.getD ⟨0, 0, 0, 0⟩
  (atan2 l.x l.y + 2 * π) - atan2 f.x f.y

/-- Method `FindStartEndAngle` with its two `CHECK`s: the span must satisfy
`diff < 3π` and `diff > π`, otherwise the frame fails fatally (`none`).
(The `head?`/`getLast?` defaults only stand in for the undefined
`front()`/`back()` of an empty cloud.) -/
noncomputable def findStartEndAngle (pts : List Pt) : Option ℝ :=
  let diff := orientationSpan pts
  if diff < 3 * π ∧ π < diff then some diff else none

/-- Method `ResetParameters`: clear the six clouds, reset the three grids to
their sentinels, the label counter to 1, and refill the two dense
clouds with `nan_point`. -/
noncomputable def resetParameters (s : FrameState) : FrameState :=
  { s with
    laserCloudIn := []
    laserCloudInRing := []
    groundCloud := []
    segmentedCloud := []
    segmentedCloudPure := []
    outlierCloud := []
    rangeMat := fun _ _ => FLT_MAX
    groundMat := fun _ _ => 0
    labelMat := fun _ _ => LABEL_INIT
    labelCount := 1
    fullCloud := fun _ => none
    fullInfoCloud := fun _ => none }

/-- Method `CopyPointCloud` (NaN removal is the identity on the exact-real
model of finite points). -/
def copyPointCloud (s : FrameState) (msg : List Pt) : FrameState :=
  { s with laserCloudIn := msg }

/-- Method `CloudHandler`: the per-frame sequence.  A failed orientation-span
validation aborts the frame before projection, ground removal,
segmentation and publication (`none`: no outputs emitted).  On success
the published frame (pre-reset state) and the reset state are
returned. -/
noncomputable def cloudHandler (cfg : Config) (s : FrameState) (msg : List Pt) :
    Option (FrameState × FrameState) :=
  let s1 := copyPointCloud s msg
  match findStartEndAngle s1.laserCloudIn with
  | none => none
  | some _ =>
      let s2 := projectPointCloud cfg s1
      let s3 := groundRemoval cfg s2
      let s4 := cloudSegmentation cfg s3
      some (s4, resetParameters s4)

/-!
## C4: circular column adjacency, non-wrapping row adjacency
-/

/-- Claim C4: during region growing, column adjacency is circular and
row adjacency is not: a left step from column 0 reaches column
`cols - 1` of the same row, a right step from column `cols - 1` reaches
column 0, while a row step leaving `[0, rows)` produces no neighbor at
all. -/
theorem neighborOf_wrap_column_not_row (rows cols r c : ℕ)
    (hc : 1 ≤ cols) (hr : r < rows) :
    neighborOf rows cols (r, 0) (0, -1) = some (r, cols - 1) ∧
    neighborOf rows cols (r, cols - 1) (0, 1) = some (r, 0) ∧
    neighborOf rows cols (0, c) (-1, 0) = none ∧
    neighborOf rows cols (rows - 1, c) (1, 0) = none := by
  have hrz : ¬((r : ℤ) + 0 < 0 ∨ (rows : ℤ) ≤ (r : ℤ) + 0) := by
    push_neg
    omega
  refine ⟨?_, ?_, ?_, ?_⟩
  · simp only [neighborOf, if_neg hrz]
    have hy : ((0 : ℕ) : ℤ) + (-1 : ℤ) < 0 := by norm_num
    simp only [if_pos hy, Option.some.injEq, Prod.mk.injEq]
    constructor <;> omega
  · simp only [neighborOf, if_neg hrz]
    have hy : ¬(((cols - 1 : ℕ) : ℤ) + (1 : ℤ) < 0) := by omega
    have hy2 : (cols : ℤ) ≤ ((cols - 1 : ℕ) : ℤ) + 1 := by omega
    simp only [if_neg hy, if_pos hy2, Option.some.injEq, Prod.mk.injEq]
    constructor <;> omega
  · have hx : ((0 : ℕ) : ℤ) + (-1 : ℤ) < 0 ∨ (rows : ℤ) ≤ ((0 : ℕ) : ℤ) + (-1 : ℤ) := by
      left; norm_num
    simp only [neighborOf, if_pos hx]
  · have hx : ((rows - 1 : ℕ) : ℤ) + (1 : ℤ) < 0 ∨
        (rows : ℤ) ≤ ((rows - 1 : ℕ) : ℤ) + (1 : ℤ) := by
      right; omega
    simp only [neighborOf, if_pos hx]

/-- Witness for C4 at rows = 2, cols = 4, r = 1, c = 3. -/
theorem neighborOf_wrap_column_not_row_witness :
    1 ≤ 4 ∧ 1 < 2 ∧
    (neighborOf 2 4 (1, 0) (0, -1) = some (1, 3) ∧
     neighborOf 2 4 (1, 3) (0, 1) = some (1, 0) ∧
     neighborOf 2 4 (0, 3) (-1, 0) = none ∧
     neighborOf 2 4 (1, 3) (1, 0) = none) :=
  ⟨by norm_num, by norm_num,
   neighborOf_wrap_column_not_row 2 4 1 3 (by norm_num) (by norm_num)⟩

/-!
## C8: `ResetParameters` restores all frame state
-/

/-- Claim C8: after a frame, `ResetParameters` restores every
frame-scoped structure to its initial value: the range image all
`FLT_MAX`, the ground mask all 0 (unknown), the label map all 0
(unvisited), the label counter 1, the six `clear()`ed clouds empty and
every `full_cloud`/`full_info_cloud` slot the `nan_point` sentinel,
regardless of the state the frame left behind. -/
theorem resetParameters_restores (s : FrameState) :
    (resetParameters s).rangeMat = (fun _ _ => FLT_MAX) ∧
    (resetParameters s).groundMat = (fun _ _ => 0) ∧
    (resetParameters s).labelMat = (fun _ _ => LABEL_INIT) ∧
    (resetParameters s).labelCount = 1 ∧
    (resetParameters s).fullCloud = (fun _ => none) ∧
    (resetParameters s).fullInfoCloud = (fun _ => none) ∧
    (resetParameters s).laserCloudIn = [] ∧
    (resetParameters s).laserCloudInRing = [] ∧
    (resetParameters s).groundCloud = [] ∧
    (resetParameters s).segmentedCloud = [] ∧
    (resetParameters s).segmentedCloudPure = [] ∧
    (resetParameters s).outlierCloud = [] :=
  ⟨rfl, rfl, rfl, rfl, rfl, rfl, rfl, rfl, rfl, rfl, rfl, rfl⟩

/-!
## C5: ground detection per row pair
-/

/-- Claim C5: for a column `j` and adjacent row pair `(i, i+1)` of the
slope loop: if either cell holds no return, the lower cell `(i, j)` is
marked invalid-no-return (`-1`) and no slope is computed; otherwise,
when the slope angle `atan2(dz, hypot(dx, dy))` (in degrees) is within
10 degrees of the mount angle both cells are marked ground (`1`), and
when it is not the pair marks neither cell — the mask is unchanged, so
marks made by other pairs are kept. -/
theorem groundStep_pair_effect (cfg : Config) (fc : ℕ → Option Pt)
    (gm : ℕ → ℕ → ℤ) (i j : ℕ) :
    ((fc (j + i * cfg.horizonScan) = none ∨ fc (j + (i + 1) * cfg.horizonScan) = none) →
      groundStep cfg fc gm (i, j) = set2 gm (i, j) (-1)) ∧
    (∀ p q, fc (j + i * cfg.horizonScan) = some p →
      fc (j + (i + 1) * cfg.horizonScan) = some q →
      (|atan2 (q.z - p.z)
          (Real.sqrt ((q.x - p.x) * (q.x - p.x) + (q.y - p.y) * (q.y - p.y))) * 180 / π
          - cfg.mountAngle| ≤ 10 →
        groundStep cfg fc gm (i, j) = set2 (set2 gm (i, j) 1) (i + 1, j) 1) ∧
      (¬(|atan2 (q.z - p.z)
          (Real.sqrt ((q.x - p.x) * (q.x - p.x) + (q.y - p.y) * (q.y - p.y))) * 180 / π
          - cfg.mountAngle| ≤ 10) →
        groundStep cfg fc gm (i, j) = gm)) := by
  constructor
  · intro h
    rcases h with h | h
    · simp only [groundStep, h]
    · rcases hl : fc (j + i * cfg.horizonScan) with _ | p
      · simp only [groundStep, hl]
      · simp only [groundStep, hl, h]
  · intro p q hp hq
    constructor
    · intro hang
      simp only [groundStep, hp, hq, if_pos hang]
    · intro hang
      simp only [groundStep, hp, hq, if_neg hang]

/-- Witness for C5: a pair with an empty upper cell marks the lower
cell `-1`. -/
theorem groundStep_pair_effect_witness :
    ((fun _ : ℕ => (none : Option Pt)) (0 + 0 * (4:ℕ)) = none ∨
     (fun _ : ℕ => (none : Option Pt)) (0 + (0 + 1) * (4:ℕ)) = none) ∧
    groundStep ⟨2, 4, 44, 1, 2, 1, 0, 1, 0, 0, 0, 5, 3⟩ (fun _ => none)
      (fun _ _ => 0) (0, 0) = set2 (fun _ _ => 0) (0, 0) (-1) :=
  ⟨Or.inl rfl,
   (groundStep_pair_effect ⟨2, 4, 44, 1, 2, 1, 0, 1, 0, 0, 0, 5, 3⟩
     (fun _ => none) (fun _ _ => 0) 0 0).1 (Or.inl rfl)⟩

/-!
## C2: per-neighbor admission test
-/

theorem admitOf_eq_true_iff (rm : ℕ → ℕ → ℝ) (alphaX alphaY theta : ℝ)
    (cur nb : Cell) (d : ℤ × ℤ) :
    admitOf rm alphaX alphaY theta cur nb d = true ↔
      theta < atan2
        (min (rm cur.1 cur.2) (rm nb.1 nb.2) *
          Real.sin (if d.1 = 0 then alphaX else alphaY))
        (max (rm cur.1 cur.2) (rm nb.1 nb.2) -
          min (rm cur.1 cur.2) (rm nb.1 nb.2) *
            Real.cos (if d.1 = 0 then alphaX else alphaY)) := by
  simp only [admitOf]
  exact decide_eq_true_iff

/-- Claim C2: for a candidate neighbor that is examined (in bounds and
still unlabeled), with `d1`/`d2` the max/min of the two cell ranges and
`alpha` the horizontal increment for a column move and the vertical one
for a row move, the neighbor is admitted — labeled with the current
segment id and enqueued — exactly when
`atan2(d2*sin(alpha), d1 - d2*cos(alpha))` exceeds `segmentTheta`; and
when the angle does not exceed the threshold the examination changes
nothing at all. -/
theorem tryAdmit_angle_iff (rows cols : ℕ) (rm : ℕ → ℕ → ℝ)
    (alphaX alphaY theta : ℝ) (lc : ℤ) (st : BfsState) (cur : Cell)
    (d : ℤ × ℤ) (nb : Cell)
    (hnb : neighborOf rows cols cur d = some nb)
    (hzero : st.lm nb.1 nb.2 = LABEL_INIT)
    (hlc : lc ≠ LABEL_INIT) :
    (theta < atan2
        (min (rm cur.1 cur.2) (rm nb.1 nb.2) *
          Real.sin (if d.1 = 0 then alphaX else alphaY))
        (max (rm cur.1 cur.2) (rm nb.1 nb.2) -
          min (rm cur.1 cur.2) (rm nb.1 nb.2) *
            Real.cos (if d.1 = 0 then alphaX else alphaY)) ↔
      ((tryAdmit rows cols (admitOf rm alphaX alphaY theta) lc cur st d).lm nb.1 nb.2 = lc ∧
       (tryAdmit rows cols (admitOf rm alphaX alphaY theta) lc cur st d).pushed =
         st.pushed ++ [nb])) ∧
    (¬ theta < atan2
        (min (rm cur.1 cur.2) (rm nb.1 nb.2) *
          Real.sin (if d.1 = 0 then alphaX else alphaY))
        (max (rm cur.1 cur.2) (rm nb.1 nb.2) -
          min (rm cur.1 cur.2) (rm nb.1 nb.2) *
            Real.cos (if d.1 = 0 then alphaX else alphaY)) →
      tryAdmit rows cols (admitOf rm alphaX alphaY theta) lc cur st d = st) := by
  have hiff := admitOf_eq_true_iff rm alphaX alphaY theta cur nb d
  have hguard : ¬ st.lm nb.1 nb.2 ≠ LABEL_INIT := by simp [hzero]
  cases hb : admitOf rm alphaX alphaY theta cur nb d with
  | false =>
      have hP : ¬ theta < atan2
          (min (rm cur.1 cur.2) (rm nb.1 nb.2) *
            Real.sin (if d.1 = 0 then alphaX else alphaY))
          (max (rm cur.1 cur.2) (rm nb.1 nb.2) -
            min (rm cur.1 cur.2) (rm nb.1 nb.2) *
              Real.cos (if d.1 = 0 then alphaX else alphaY)) := by
        rw [← hiff, hb]
        simp
      have hst : tryAdmit rows cols (admitOf rm alphaX alphaY theta) lc cur st d = st := by
        simp only [tryAdmit, hnb, if_neg hguard, hb]
        rfl
      refine ⟨?_, fun _ => hst⟩
      rw [hst]
      constructor
      · intro h
        exact absurd h hP
      · intro h
        rw [hzero] at h
        exact absurd h.1.symm hlc
  | true =>
      have hP : theta < atan2
          (min (rm cur.1 cur.2) (rm nb.1 nb.2) *
            Real.sin (if d.1 = 0 then alphaX else alphaY))
          (max (rm cur.1 cur.2) (rm nb.1 nb.2) -
            min (rm cur.1 cur.2) (rm nb.1 nb.2) *
              Real.cos (if d.1 = 0 then alphaX else alphaY)) := hiff.mp hb
      have hst : tryAdmit rows cols (admitOf rm alphaX alphaY theta) lc cur st d =
          { st with
            lm := set2 st.lm nb lc
            pushed := st.pushed ++ [nb]
            lineFlag := fun r => if r = nb.1 then true else st.lineFlag r } := by
        simp only [tryAdmit, hnb, if_neg hguard, hb]
        rfl
      refine ⟨?_, fun h => absurd hP h⟩
      rw [hst]
      constructor
      · intro _
        exact ⟨set2_same st.lm nb lc, rfl⟩
      · intro _
        exact hP

/-- A concrete one-cell-pushed BFS state over an all-unlabeled map. -/
def w2State : BfsState :=
  { lm := fun _ _ => 0, pushed := [(0, 0)], start := 0, lineFlag := fun _ => false }

/-- Witness for C2 at a concrete examination: 2x2 grid, unit ranges,
zero increments and threshold, current cell (0,0), right neighbor (0,1). -/
theorem tryAdmit_angle_iff_witness :
    neighborOf 2 2 (0, 0) (0, 1) = some (0, 1) ∧
    w2State.lm 0 1 = LABEL_INIT ∧
    (1 : ℤ) ≠ LABEL_INIT ∧
    (¬ (0 : ℝ) < atan2 (min (1 : ℝ) 1 * Real.sin 0)
        (max (1 : ℝ) 1 - min (1 : ℝ) 1 * Real.cos 0) →
      tryAdmit 2 2 (admitOf (fun _ _ => 1) 0 0 0) 1 (0, 0) w2State (0, 1) = w2State) :=
  ⟨rfl, rfl, by decide,
   (tryAdmit_angle_iff 2 2 (fun _ _ => 1) 0 0 0 1 w2State (0, 0) (0, 1) (0, 1)
     rfl rfl (by decide)).2⟩

/-!
## C6: fatal orientation-span validation
-/

/-- Claim C6: the frame's sweep orientation span (last azimuth plus 2π
minus first azimuth) must lie in the open interval `(π, 3π)`: the frame
handler yields no output — projection, ground classification,
segmentation and publication are all skipped — exactly when the span is
outside it. -/
theorem cloudHandler_span_validation (cfg : Config) (s : FrameState) (msg : List Pt) :
    cloudHandler cfg s msg = none ↔
      ¬(π < orientationSpan msg ∧ orientationSpan msg < 3 * π) := by
  by_cases h : orientationSpan msg < 3 * π ∧ π < orientationSpan msg
  · have hpos : ¬(cloudHandler cfg s msg = none) := by
      simp only [cloudHandler, copyPointCloud, findStartEndAngle, if_pos h]
      simp
    constructor
    · intro hc
      exact absurd hc hpos
    · intro hbad
      exact absurd ⟨h.2, h.1⟩ hbad
  · have hc : cloudHandler cfg s msg = none := by
      simp only [cloudHandler, copyPointCloud, findStartEndAngle, if_neg h]
    constructor
    · intro _ hgood
      exact h ⟨hgood.2, hgood.1⟩
    · intro _
      exact hc

/-- The two-point frame `(x,y) = (0,1)` then `(0,-1)` has span exactly
`3π` (azimuths 0 and π). -/
theorem orientationSpan_boundary :
    orientationSpan [⟨0, 1, 0, 0⟩, ⟨0, -1, 0, 0⟩] = 3 * π := by
  show (atan2 (0 : ℝ) (-1) + 2 * π) - atan2 0 1 = 3 * π
  rw [atan2_zero_neg_one, atan2_zero_one]
  ring

/-- A fresh frame state (everything at its reset value). -/
noncomputable def frame0 : FrameState :=
  { laserCloudIn := []
    laserCloudInRing := []
    rangeMat := fun _ _ => FLT_MAX
    groundMat := fun _ _ => 0
    labelMat := fun _ _ => LABEL_INIT
    labelCount := 1
    fullCloud := fun _ => none
    fullInfoCloud := fun _ => none
    groundCloud := []
    segmentedCloud := []
    segmentedCloudPure := []
    outlierCloud := []
    segGroundFlag := []
    segColInd := []
    segRange := []
    startRingIndex := fun _ => 0
    endRingIndex := fun _ => 0 }

/-- Witness for C6: a frame whose span is exactly `3π` is rejected. -/
theorem cloudHandler_span_validation_witness :
    cloudHandler ⟨2, 4, 44, 1, 2, 1, 0, 1, 0, 0, 0, 5, 3⟩ frame0
      [⟨0, 1, 0, 0⟩, ⟨0, -1, 0, 0⟩] = none :=
  (cloudHandler_span_validation ⟨2, 4, 44, 1, 2, 1, 0, 1, 0, 0, 0, 5, 3⟩ frame0
      [⟨0, 1, 0, 0⟩, ⟨0, -1, 0, 0⟩]).mpr
    (by
      rw [orientationSpan_boundary]
      intro hgood
      exact lt_irrefl _ hgood.2)

/-!
## C10: bucketing, unsigned wrap and index bounds in `ProjectPointCloud`
-/

/-- A return one unit forward, one unit down: azimuth 90°, vertical
angle exactly -45°. -/
def ptProbe : Pt := ⟨1, 0, -1, 0⟩

/-- Configuration under which `ptProbe`'s row bucket is `-1/2`:
2 rows, 4 columns, `ang_bottom = 44`, `ang_res_y = 2`. -/
def cfgKeep : Config := ⟨2, 4, 44, 1, 2, 1, 0, 1, 0, 0, 0, 5, 3⟩

/-- Configuration under which `ptProbe`'s row bucket is `-1`:
same but `ang_bottom = 43`. -/
def cfgDrop : Config := ⟨2, 4, 43, 1, 2, 1, 0, 1, 0, 0, 0, 5, 3⟩

theorem verticalAngleDeg_ptProbe : verticalAngleDeg ptProbe = -45 := by
  have h1 : (ptProbe.x * ptProbe.x + ptProbe.y * ptProbe.y : ℝ) = 1 := by
    norm_num [ptProbe]
  have h2 : ptProbe.z = (-1 : ℝ) := rfl
  rw [verticalAngleDeg, h1, h2, Real.sqrt_one, atan2_neg_one_one]
  field_simp
  ring

theorem horizonAngleDeg_ptProbe : horizonAngleDeg ptProbe = 90 := by
  have h1 : ptProbe.x = (1 : ℝ) := rfl
  have h2 : ptProbe.y = (0 : ℝ) := rfl
  rw [horizonAngleDeg, h1, h2, atan2_one_zero]
  field_simp
  ring

theorem rowBucket_cfgKeep : rowBucket cfgKeep ptProbe = -(1 / 2) := by
  rw [rowBucket, verticalAngleDeg_ptProbe]
  show ((-45 : ℝ) + 44) / 2 = -(1 / 2)
  norm_num

theorem colBucket_cfgKeep : colBucket cfgKeep ptProbe = 2 := by
  rw [colBucket, horizonAngleDeg_ptProbe]
  show -roundC (((90 : ℝ) - 90) / 1) + ((4 / 2 : ℕ) : ℝ) = 2
  have h0 : ((90 : ℝ) - 90) / 1 = 0 := by norm_num
  rw [h0]
  have hr : roundC 0 = 0 := by
    rw [roundC, if_pos le_rfl]
    norm_num
  rw [hr]
  norm_num

theorem sizeT_neg_half : sizeT (-(1 / 2)) = 0 := by
  have ht : truncInt (-(1 / 2)) = 0 := by
    rw [truncInt, if_neg (by norm_num)]
    rw [Int.ceil_eq_zero_iff]
    constructor <;> norm_num
  rw [sizeT, ht]
  rfl

theorem sizeT_two : sizeT 2 = 2 := by
  have ht : truncInt 2 = 2 := by
    rw [truncInt, if_pos (by norm_num)]
    norm_num
  rw [sizeT, ht]
  rfl

theorem rangeOf_ptProbe : rangeOf ptProbe = Real.sqrt 2 := by
  rw [rangeOf]
  norm_num [ptProbe]

/-- Counterexample to C10: a point whose real row bucket is the
negative value `-1/2` is not discarded — the C `size_t` conversion
truncates it to row 0 and the point is projected and written (here to
linear index 2 = col 2 + row 0 * 4, changing `range_mat`). -/
theorem projectPoint_negative_bucket_written :
    rowBucket cfgKeep ptProbe < 0 ∧
    projectPoint cfgKeep ptProbe = some (0, 2, Real.sqrt 2) ∧
    (projStep cfgKeep frame0 ptProbe).rangeMat 0 2 = Real.sqrt 2 ∧
    Real.sqrt 2 ≠ FLT_MAX := by
  have hrow : sizeT (rowBucket cfgKeep ptProbe) = 0 := by
    rw [rowBucket_cfgKeep, sizeT_neg_half]
  have hcol : sizeT (colBucket cfgKeep ptProbe) = 2 := by
    rw [colBucket_cfgKeep, sizeT_two]
  have hsqrt : ¬ Real.sqrt 2 < cfgKeep.minRange := by
    show ¬ Real.sqrt 2 < 1
    push_neg
    calc (1 : ℝ) = Real.sqrt 1 := Real.sqrt_one.symm
    _ ≤ Real.sqrt 2 := Real.sqrt_le_sqrt (by norm_num)
  have hproj : projectPoint cfgKeep ptProbe = some (0, 2, Real.sqrt 2) := by
    rw [projectPoint, hrow, hcol]
    have h1 : ¬ cfgKeep.nScan ≤ 0 := by decide
    have h2 : ¬ cfgKeep.horizonScan ≤ 2 := by decide
    simp only [if_neg h1, if_neg h2, rangeOf_ptProbe, if_neg hsqrt]
  refine ⟨by rw [rowBucket_cfgKeep]; norm_num, hproj, ?_, ?_⟩
  · rw [projStep, hproj]
    show set2 frame0.rangeMat (0, 2) (Real.sqrt 2) 0 2 = Real.sqrt 2
    exact set2_same frame0.rangeMat (0, 2) (Real.sqrt 2)
  · intro h
    have h2 : Real.sqrt 2 ≤ 2 := by
      calc Real.sqrt 2 ≤ Real.sqrt 4 := Real.sqrt_le_sqrt (by norm_num)
      _ = 2 := by
        rw [show (4 : ℝ) = 2 ^ 2 by norm_num]
        exact Real.sqrt_sq (by norm_num)
    rw [h] at h2
    have : (2 : ℝ) ^ 128 - 2 ^ 104 ≤ 2 := h2
    norm_num at this

/-- Claim C10 (amended): a point whose row or column bucket truncates
toward zero to a negative integral value is silently discarded, the
unsigned conversion wrapping it past the upper-bound checks (stated
under the physical-magnitude hypothesis that the wrapped value clears
the grid dimension); a fractional row bucket in `(-1, 0)` instead
truncates to row 0 and is kept (see the counterexample).  Every
performed write targets `column + row * HORIZON_SCAN` inside
`[0, nScan * horizonScan)`, and a discarded point writes nothing. -/
theorem linIndex_lt (R C r c : ℕ) (hr : r < R) (hc : c < C) :
    c + r * C < R * C := by
  have hstep : c + r * C < (r + 1) * C := by
    rw [add_mul, one_mul]
    omega
  exact lt_of_lt_of_le hstep (Nat.mul_le_mul_right C hr)

theorem projectPoint_discard_characterization (cfg : Config) (p : Pt) :
    (truncInt (rowBucket cfg p) < 0 →
      (cfg.nScan : ℤ) ≤ truncInt (rowBucket cfg p) + 2 ^ 64 →
      projectPoint cfg p = none) ∧
    (truncInt (colBucket cfg p) < 0 →
      ((2 * cfg.horizonScan : ℕ) : ℤ) ≤ truncInt (colBucket cfg p) + 2 ^ 64 →
      projectPoint cfg p = none) ∧
    (∀ r c rng, projectPoint cfg p = some (r, c, rng) →
      r < cfg.nScan ∧ c < cfg.horizonScan ∧
      c + r * cfg.horizonScan < cfg.nScan * cfg.horizonScan) ∧
    (∀ s, projectPoint cfg p = none → projStep cfg s p = s) := by
  have h64 : (2 : ℤ) ^ 64 = 18446744073709551616 := by norm_num
  refine ⟨?_, ?_, ?_, ?_⟩
  · intro h1 h2
    have hge : cfg.nScan ≤ sizeT (rowBucket cfg p) := by
      rw [sizeT, sizeTofInt]
      rw [h64] at h2 ⊢
      omega
    simp only [projectPoint, if_pos hge]
  · intro h1 h2
    by_cases hr : cfg.nScan ≤ sizeT (rowBucket cfg p)
    · simp only [projectPoint, if_pos hr]
    · have hcol0 : 2 * cfg.horizonScan ≤ sizeT (colBucket cfg p) := by
        rw [sizeT, sizeTofInt]
        rw [h64] at h2 ⊢
        omega
      have hA : cfg.horizonScan ≤ sizeT (colBucket cfg p) := by omega
      have hB : cfg.horizonScan ≤ sizeT (colBucket cfg p) - cfg.horizonScan := by omega
      simp only [projectPoint, if_neg hr, if_pos hA, if_pos hB]
  · intro r c rng h
    simp only [projectPoint] at h
    split_ifs at h
    all_goals
      rw [Option.some.injEq, Prod.mk.injEq] at h
      obtain ⟨hre, hrest⟩ := h
      rw [Prod.mk.injEq] at hrest
      obtain ⟨hce, -⟩ := hrest
      exact ⟨by omega, by omega, linIndex_lt _ _ _ _ (by omega) (by omega)⟩
  · intro s h
    simp only [projStep, h]

/-- Witness for C10 (amended): with `ang_bottom = 43` the probe point's
row bucket is exactly `-1`; its truncation is negative and the point is
discarded. -/
theorem projectPoint_discard_characterization_witness :
    truncInt (rowBucket cfgDrop ptProbe) < 0 ∧
    (cfgDrop.nScan : ℤ) ≤ truncInt (rowBucket cfgDrop ptProbe) + 2 ^ 64 ∧
    projectPoint cfgDrop ptProbe = none := by
  have hb : rowBucket cfgDrop ptProbe = -1 := by
    rw [rowBucket, verticalAngleDeg_ptProbe]
    show ((-45 : ℝ) + 43) / 2 = -1
    norm_num
  have ht : truncInt (rowBucket cfgDrop ptProbe) = -1 := by
    rw [hb, truncInt, if_neg (by norm_num)]
    rw [show (-1 : ℝ) = ((-1 : ℤ) : ℝ) by norm_num, Int.ceil_intCast]
  refine ⟨by rw [ht]; norm_num, by rw [ht]; norm_num [cfgDrop], ?_⟩
  exact (projectPoint_discard_characterization cfgDrop ptProbe).1
    (by rw [ht]; norm_num) (by rw [ht]; norm_num [cfgDrop])

/-!
## C9: outlier sampling of INVALID cells during output assembly
-/

/-- The exact condition under which the assembly loop pushes a cell
into `outlier_cloud`. -/
def outlierPick (cfg : Config) (lm gm : ℕ → ℕ → ℤ) (ij : Cell) : Bool :=
  decide ((0 < lm ij.1 ij.2 ∨ gm ij.1 ij.2 = 1) ∧ lm ij.1 ij.2 = LABEL_INVALID ∧
    cfg.groundScanInd < ij.1 ∧ ij.2 % 5 = 0)

/-- The exact condition under which the assembly loop pushes a cell
into `segmented_cloud`. -/
def segPick (cfg : Config) (lm gm : ℕ → ℕ → ℤ) (ij : Cell) : Bool :=
  decide ((0 < lm ij.1 ij.2 ∨ gm ij.1 ij.2 = 1) ∧ lm ij.1 ij.2 ≠ LABEL_INVALID ∧
    ¬(gm ij.1 ij.2 = 1 ∧ (ij.2 % 5 ≠ 0 ∧ 5 < ij.2 ∧ (ij.2 : ℤ) < (cfg.horizonScan : ℤ) - 5)))

theorem asmStep_outlier (cfg : Config) (lm gm : ℕ → ℕ → ℤ) (rm : ℕ → ℕ → ℝ)
    (fc : ℕ → Option Pt) (s : AsmState) (ij : Cell) :
    (asmStep cfg lm gm rm fc s ij).outlier =
      s.outlier ++ (if outlierPick cfg lm gm ij then
        [fc (ij.2 + ij.1 * cfg.horizonScan)] else []) := by
  obtain ⟨i, j⟩ := ij
  by_cases hg : 0 < lm i j ∨ gm i j = 1
  · by_cases hinv : lm i j = LABEL_INVALID
    · by_cases hs : cfg.groundScanInd < i ∧ j % 5 = 0
      · have hpick : outlierPick cfg lm gm (i, j) = true := by
          rw [outlierPick, decide_eq_true_iff]
          exact ⟨hg, hinv, hs⟩
        simp only [asmStep, if_pos hg, if_pos hinv, if_pos hs, hpick]
        simp
      · have hpick : outlierPick cfg lm gm (i, j) = false := by
          rw [outlierPick]
          simp only [decide_eq_false_iff_not]
          rintro ⟨-, -, h3, h4⟩
          exact hs ⟨h3, h4⟩
        simp only [asmStep, if_pos hg, if_pos hinv, if_neg hs, hpick]
        simp
    · have hpick : outlierPick cfg lm gm (i, j) = false := by
        rw [outlierPick]
        simp only [decide_eq_false_iff_not]
        rintro ⟨-, h2, -⟩
        exact hinv h2
      by_cases hsk : gm i j = 1 ∧ (j % 5 ≠ 0 ∧ 5 < j ∧ (j : ℤ) < (cfg.horizonScan : ℤ) - 5)
      · simp only [asmStep, if_pos hg, if_neg hinv, if_pos hsk, hpick]
        simp
      · simp only [asmStep, if_pos hg, if_neg hinv, if_neg hsk, hpick]
        simp
  · have hpick : outlierPick cfg lm gm (i, j) = false := by
      rw [outlierPick]
      simp only [decide_eq_false_iff_not]
      rintro ⟨h1, -⟩
      exact hg h1
    simp only [asmStep, if_neg hg, hpick]
    simp

theorem asmStep_segmented (cfg : Config) (lm gm : ℕ → ℕ → ℤ) (rm : ℕ → ℕ → ℝ)
    (fc : ℕ → Option Pt) (s : AsmState) (ij : Cell) :
    (asmStep cfg lm gm rm fc s ij).segmented =
      s.segmented ++ (if segPick cfg lm gm ij then
        [fc (ij.2 + ij.1 * cfg.horizonScan)] else []) := by
  obtain ⟨i, j⟩ := ij
  by_cases hg : 0 < lm i j ∨ gm i j = 1
  · by_cases hinv : lm i j = LABEL_INVALID
    · have hpick : segPick cfg lm gm (i, j) = false := by
        rw [segPick]
        simp only [decide_eq_false_iff_not]
        rintro ⟨-, h2, -⟩
        exact h2 hinv
      by_cases hs : cfg.groundScanInd < i ∧ j % 5 = 0
      · simp only [asmStep, if_pos hg, if_pos hinv, if_pos hs, hpick]
        simp
      · simp only [asmStep, if_pos hg, if_pos hinv, if_neg hs, hpick]
        simp
    · by_cases hsk : gm i j = 1 ∧ (j % 5 ≠ 0 ∧ 5 < j ∧ (j : ℤ) < (cfg.horizonScan : ℤ) - 5)
      · have hpick : segPick cfg lm gm (i, j) = false := by
          rw [segPick]
          simp only [decide_eq_false_iff_not]
          rintro ⟨-, -, h3⟩
          exact h3 hsk
        simp only [asmStep, if_pos hg, if_neg hinv, if_pos hsk, hpick]
        simp
      · have hpick : segPick cfg lm gm (i, j) = true := by
          rw [segPick, decide_eq_true_iff]
          exact ⟨hg, hinv, hsk⟩
        simp only [asmStep, if_pos hg, if_neg hinv, if_neg hsk, hpick]
        simp
  · have hpick : segPick cfg lm gm (i, j) = false := by
      rw [segPick]
      simp only [decide_eq_false_iff_not]
      rintro ⟨h1, -⟩
      exact hg h1
    simp only [asmStep, if_neg hg, hpick]
    simp

theorem asm_fold_clouds (cfg : Config) (lm gm : ℕ → ℕ → ℤ) (rm : ℕ → ℕ → ℝ)
    (fc : ℕ → Option Pt) :
    ∀ (cells : List Cell) (s : AsmState),
      ((cells.foldl (asmStep cfg lm gm rm fc) s).outlier =
        s.outlier ++ (cells.filter (outlierPick cfg lm gm)).map
          (fun ij => fc (ij.2 + ij.1 * cfg.horizonScan))) ∧
      ((cells.foldl (asmStep cfg lm gm rm fc) s).segmented =
        s.segmented ++ (cells.filter (segPick cfg lm gm)).map
          (fun ij => fc (ij.2 + ij.1 * cfg.horizonScan)))
  | [], s => by simp
  | ij :: rest, s => by
      have ih := asm_fold_clouds cfg lm gm rm fc rest (asmStep cfg lm gm rm fc s ij)
      simp only [List.foldl_cons, List.filter_cons]
      constructor
      · rw [ih.1, asmStep_outlier]
        by_cases h : outlierPick cfg lm gm ij
        · simp [h]
        · simp [h]
      · rw [ih.2, asmStep_segmented]
        by_cases h : segPick cfg lm gm ij
        · simp [h]
        · simp [h]

theorem asmRow_clouds (cfg : Config) (lm gm : ℕ → ℕ → ℤ) (rm : ℕ → ℕ → ℝ)
    (fc : ℕ → Option Pt) (s : AsmState) (i : ℕ) :
    ((asmRow cfg lm gm rm fc s i).outlier =
      s.outlier ++ (((List.range cfg.horizonScan).map (fun j => (i, j))).filter
        (outlierPick cfg lm gm)).map (fun ij => fc (ij.2 + ij.1 * cfg.horizonScan))) ∧
    ((asmRow cfg lm gm rm fc s i).segmented =
      s.segmented ++ (((List.range cfg.horizonScan).map (fun j => (i, j))).filter
        (segPick cfg lm gm)).map (fun ij => fc (ij.2 + ij.1 * cfg.horizonScan))) := by
  have hmap : ∀ (t : AsmState),
      (List.range cfg.horizonScan).foldl (fun t j => asmStep cfg lm gm rm fc t (i, j)) t =
        ((List.range cfg.horizonScan).map (fun j => (i, j))).foldl
          (asmStep cfg lm gm rm fc) t := by
    intro t
    rw [List.foldl_map]
  have h := asm_fold_clouds cfg lm gm rm fc
    ((List.range cfg.horizonScan).map (fun j => (i, j)))
    { s with startRingIndex := set1 s.startRingIndex i (s.size - 1 + 5) }
  constructor
  · show ((List.range cfg.horizonScan).foldl
        (fun t j => asmStep cfg lm gm rm fc t (i, j))
        { s with startRingIndex := set1 s.startRingIndex i (s.size - 1 + 5) }).outlier = _
    rw [hmap]
    exact h.1
  · show ((List.range cfg.horizonScan).foldl
        (fun t j => asmStep cfg lm gm rm fc t (i, j))
        { s with startRingIndex := set1 s.startRingIndex i (s.size - 1 + 5) }).segmented = _
    rw [hmap]
    exact h.2

theorem phase2_fold_clouds (cfg : Config) (lm gm : ℕ → ℕ → ℤ) (rm : ℕ → ℕ → ℝ)
    (fc : ℕ → Option Pt) :
    ∀ (rowsList : List ℕ) (s : AsmState),
      ((rowsList.foldl (asmRow cfg lm gm rm fc) s).outlier =
        s.outlier ++ (((rowsList.map
            (fun i => (List.range cfg.horizonScan).map (fun j => (i, j)))).flatten).filter
          (outlierPick cfg lm gm)).map (fun ij => fc (ij.2 + ij.1 * cfg.horizonScan))) ∧
      ((rowsList.foldl (asmRow cfg lm gm rm fc) s).segmented =
        s.segmented ++ (((rowsList.map
            (fun i => (List.range cfg.horizonScan).map (fun j => (i, j)))).flatten).filter
          (segPick cfg lm gm)).map (fun ij => fc (ij.2 + ij.1 * cfg.horizonScan)))
  | [], s => by simp
  | i :: rest, s => by
      have ih := phase2_fold_clouds cfg lm gm rm fc rest (asmRow cfg lm gm rm fc s i)
      have hrow := asmRow_clouds cfg lm gm rm fc s i
      simp only [List.foldl_cons, List.map_cons, List.flatten_cons, List.filter_append,
        List.map_append]
      constructor
      · rw [ih.1, hrow.1, List.append_assoc]
      · rw [ih.2, hrow.2, List.append_assoc]

/-- Claim C9: during output assembly, among the cells labeled
`LABEL_INVALID` exactly those on rows strictly beyond `groundScanInd`
whose column index is a multiple of 5 are appended to the outlier
cloud (in row-major order), and no `LABEL_INVALID` cell is ever
appended to the segmented cloud. -/
theorem cloudSegPhase2_invalid_cells (cfg : Config) (lm gm : ℕ → ℕ → ℤ)
    (rm : ℕ → ℕ → ℝ) (fc : ℕ → Option Pt) (s₀ : AsmState) :
    ((cloudSegPhase2 cfg lm gm rm fc s₀).outlier =
      s₀.outlier ++ ((cellsOf cfg.nScan cfg.horizonScan).filter
        (fun ij => decide (lm ij.1 ij.2 = LABEL_INVALID ∧
          cfg.groundScanInd < ij.1 ∧ ij.2 % 5 = 0))).map
        (fun ij => fc (ij.2 + ij.1 * cfg.horizonScan))) ∧
    ((cloudSegPhase2 cfg lm gm rm fc s₀).segmented =
      s₀.segmented ++ ((cellsOf cfg.nScan cfg.horizonScan).filter
        (segPick cfg lm gm)).map (fun ij => fc (ij.2 + ij.1 * cfg.horizonScan))) ∧
    (∀ ij : Cell, segPick cfg lm gm ij = true → lm ij.1 ij.2 ≠ LABEL_INVALID) := by
  have h := phase2_fold_clouds cfg lm gm rm fc (List.range cfg.nScan) s₀
  have hcells : ((List.range cfg.nScan).map
      (fun i => (List.range cfg.horizonScan).map (fun j => (i, j)))).flatten =
      cellsOf cfg.nScan cfg.horizonScan := rfl
  refine ⟨?_, ?_, ?_⟩
  · rw [show (cloudSegPhase2 cfg lm gm rm fc s₀) =
        (List.range cfg.nScan).foldl (asmRow cfg lm gm rm fc) s₀ from rfl]
    rw [h.1, hcells]
    congr 1
    apply congrArg
    apply List.filter_congr
    intro ij _
    rw [outlierPick]
    rw [decide_eq_decide]
    constructor
    · rintro ⟨-, h2, h3⟩
      exact ⟨h2, h3⟩
    · rintro ⟨h2, h3⟩
      refine ⟨Or.inl ?_, h2, h3⟩
      rw [h2]
      norm_num [LABEL_INVALID]
  · rw [show (cloudSegPhase2 cfg lm gm rm fc s₀) =
        (List.range cfg.nScan).foldl (asmRow cfg lm gm rm fc) s₀ from rfl]
    rw [h.2, hcells]
  · intro ij hpick
    rw [segPick, decide_eq_true_iff] at hpick
    exact hpick.2.1

/-- Witness for C9: a 2x2 frame with a single `LABEL_INVALID` cell at
row 1 (beyond `groundScanInd = 0`), column 0 (a multiple of 5): that
cell alone is sampled into the outlier cloud and nothing reaches the
segmented cloud. -/
theorem cloudSegPhase2_invalid_cells_witness :
    (cloudSegPhase2 ⟨2, 2, 44, 1, 2, 1, 0, 0, 0, 0, 0, 5, 3⟩
        (fun i j => if i = 1 ∧ j = 0 then 999999 else -1) (fun _ _ => 0)
        (fun _ _ => 0) (fun _ => none)
        ⟨0, [], [], [], [], [], fun _ => 0, fun _ => 0⟩).outlier = [none] ∧
    (cloudSegPhase2 ⟨2, 2, 44, 1, 2, 1, 0, 0, 0, 0, 0, 5, 3⟩
        (fun i j => if i = 1 ∧ j = 0 then 999999 else -1) (fun _ _ => 0)
        (fun _ _ => 0) (fun _ => none)
        ⟨0, [], [], [], [], [], fun _ => 0, fun _ => 0⟩).segmented = [] := by
  have h := cloudSegPhase2_invalid_cells ⟨2, 2, 44, 1, 2, 1, 0, 0, 0, 0, 0, 5, 3⟩
    (fun i j => if i = 1 ∧ j = 0 then 999999 else -1) (fun _ _ => 0)
    (fun _ _ => 0) (fun _ => none)
    ⟨0, [], [], [], [], [], fun _ => 0, fun _ => 0⟩
  exact ⟨h.1.trans (by rfl), h.2.1.trans (by rfl)⟩

/-!
## The BFS invariant (for C1, C3, C7)
-/

/-- The number of still-unlabeled grid cells. -/
def zeroCount (rows cols : ℕ) (lm : ℕ → ℕ → ℤ) : ℕ :=
  ((Finset.range rows ×ˢ Finset.range cols).filter
    (fun p => lm p.1 p.2 = LABEL_INIT)).card

theorem zeroCount_le (rows cols : ℕ) (lm : ℕ → ℕ → ℤ) :
    zeroCount rows cols lm ≤ rows * cols := by
  calc zeroCount rows cols lm
      ≤ (Finset.range rows ×ˢ Finset.range cols).card := Finset.card_filter_le _ _
    _ = rows * cols := by rw [Finset.card_product, Finset.card_range, Finset.card_range]

theorem set2_preserves_ne (lm : ℕ → ℕ → ℤ) (p : Cell) (v : ℤ) (hv : v ≠ LABEL_INIT)
    (a b : ℕ) (h : set2 lm p v a b = LABEL_INIT) : lm a b = LABEL_INIT := by
  by_cases hc : a = p.1 ∧ b = p.2
  · rw [set2, if_pos hc] at h
    exact absurd h hv
  · rwa [set2, if_neg hc] at h

theorem zeroCount_set_le (rows cols : ℕ) (lm : ℕ → ℕ → ℤ) (p : Cell) (v : ℤ)
    (hv : v ≠ LABEL_INIT) :
    zeroCount rows cols (set2 lm p v) ≤ zeroCount rows cols lm := by
  apply Finset.card_le_card
  intro q hq
  rw [Finset.mem_filter] at hq ⊢
  exact ⟨hq.1, set2_preserves_ne lm p v hv q.1 q.2 hq.2⟩

theorem zeroCount_set_lt (rows cols : ℕ) (lm : ℕ → ℕ → ℤ) (p : Cell) (v : ℤ)
    (hp1 : p.1 < rows) (hp2 : p.2 < cols) (h0 : lm p.1 p.2 = LABEL_INIT)
    (hv : v ≠ LABEL_INIT) :
    zeroCount rows cols (set2 lm p v) + 1 ≤ zeroCount rows cols lm := by
  have hmem : p ∈ (Finset.range rows ×ˢ Finset.range cols).filter
      (fun q => lm q.1 q.2 = LABEL_INIT) := by
    rw [Finset.mem_filter, Finset.mem_product, Finset.mem_range, Finset.mem_range]
    exact ⟨⟨hp1, hp2⟩, h0⟩
  have hsub : (Finset.range rows ×ˢ Finset.range cols).filter
      (fun q => set2 lm p v q.1 q.2 = LABEL_INIT) ⊆
      ((Finset.range rows ×ˢ Finset.range cols).filter
        (fun q => lm q.1 q.2 = LABEL_INIT)).erase p := by
    intro q hq
    rw [Finset.mem_filter] at hq
    rw [Finset.mem_erase, Finset.mem_filter]
    have hqp : q ≠ p := by
      intro he
      subst he
      rw [set2, if_pos ⟨rfl, rfl⟩] at hq
      exact hv hq.2
    exact ⟨hqp, hq.1, set2_preserves_ne lm p v hv q.1 q.2 hq.2⟩
  have h1 : zeroCount rows cols (set2 lm p v) ≤
      ((Finset.range rows ×ˢ Finset.range cols).filter
        (fun q => lm q.1 q.2 = LABEL_INIT)).card - 1 := by
    calc zeroCount rows cols (set2 lm p v)
        ≤ (((Finset.range rows ×ˢ Finset.range cols).filter
            (fun q => lm q.1 q.2 = LABEL_INIT)).erase p).card :=
          Finset.card_le_card hsub
      _ = _ := Finset.card_erase_of_mem hmem
  have h2 : 1 ≤ ((Finset.range rows ×ˢ Finset.range cols).filter
      (fun q => lm q.1 q.2 = LABEL_INIT)).card :=
    Finset.card_pos.mpr ⟨p, hmem⟩
  simp only [zeroCount] at h1 h2 ⊢
  omega

/-- The invariant carried through the flood fill, relative to the label
map `lm₀` at fill entry, the seed, and the segment id `lc`. -/
structure BfsInv (rows cols : ℕ) (lc : ℤ) (lm₀ : ℕ → ℕ → ℤ) (seed : Cell)
    (st : BfsState) : Prop where
  labeled : ∀ p ∈ st.pushed, st.lm p.1 p.2 = lc
  nodup : st.pushed.Nodup
  origin : ∀ a b, st.lm a b ≠ lm₀ a b → ((a, b) ∈ st.pushed ∧ lm₀ a b = LABEL_INIT)
  wasZero : ∀ p ∈ st.pushed, lm₀ p.1 p.2 = LABEL_INIT
  inGrid : ∀ p ∈ st.pushed, p.1 < rows ∧ p.2 < cols
  bound : st.pushed.length + zeroCount rows cols st.lm ≤ rows * cols
  headSeed : st.pushed.head? = some seed
  flags : ∀ r, st.lineFlag r = true ↔ r ∈ (st.pushed.drop 1).map Prod.fst

theorem neighborOf_grid (rows cols : ℕ) (p : Cell) (d : ℤ × ℤ) (nb : Cell)
    (hc : 1 ≤ cols) (h : neighborOf rows cols p d = some nb) :
    nb.1 < rows ∧ nb.2 < cols := by
  simp only [neighborOf] at h
  by_cases h1 : (p.1 : ℤ) + d.1 < 0 ∨ (rows : ℤ) ≤ (p.1 : ℤ) + d.1
  · rw [if_pos h1] at h
    exact absurd h (by simp)
  · rw [if_neg h1] at h
    push_neg at h1
    rw [Option.some.injEq] at h
    subst h
    refine ⟨by omega, ?_⟩
    show (if (p.2 : ℤ) + d.2 < 0 then (cols : ℤ) - 1
      else if (cols : ℤ) ≤ (p.2 : ℤ) + d.2 then 0 else (p.2 : ℤ) + d.2).toNat < cols
    split_ifs with h2 h3 <;> omega

theorem tryAdmit_inv (rows cols : ℕ) (adm : Cell → Cell → ℤ × ℤ → Bool)
    (lc : ℤ) (lm₀ : ℕ → ℕ → ℤ) (seed cur : Cell) (st : BfsState) (d : ℤ × ℤ)
    (hlc : lc ≠ LABEL_INIT) (hc : 1 ≤ cols)
    (hinv : BfsInv rows cols lc lm₀ seed st) :
    BfsInv rows cols lc lm₀ seed (tryAdmit rows cols adm lc cur st d) := by
  rcases hnb : neighborOf rows cols cur d with _ | nb
  · simpa only [tryAdmit, hnb] using hinv
  · simp only [tryAdmit, hnb]
    by_cases hz : st.lm nb.1 nb.2 ≠ LABEL_INIT
    · rw [if_pos hz]
      exact hinv
    · rw [if_neg hz]
      push_neg at hz
      by_cases ha : adm cur nb d
      · rw [if_pos ha]
        have hnbGrid := neighborOf_grid rows cols cur d nb hc hnb
        have hnbNew : nb ∉ st.pushed := fun hmem =>
          hlc ((hinv.labeled nb hmem).symm.trans hz)
        have hzero : lm₀ nb.1 nb.2 = LABEL_INIT := by
          by_cases hch : st.lm nb.1 nb.2 ≠ lm₀ nb.1 nb.2
          · exact (hinv.origin nb.1 nb.2 hch).2
          · push_neg at hch
            rw [← hch]
            exact hz
        obtain ⟨tl, hps⟩ : ∃ tl, st.pushed = seed :: tl := by
          have hhead := hinv.headSeed
          cases hp : st.pushed with
          | nil =>
              rw [hp] at hhead
              exact absurd hhead (by simp)
          | cons a tl =>
              rw [hp] at hhead
              simp only [List.head?_cons, Option.some.injEq] at hhead
              exact ⟨tl, by rw [hhead]⟩
        refine ⟨?_, ?_, ?_, ?_, ?_, ?_, ?_, ?_⟩
        · intro p hp
          show set2 st.lm nb lc p.1 p.2 = lc
          rcases List.mem_append.mp hp with hpL | hpR
          · have hpne : ¬(p.1 = nb.1 ∧ p.2 = nb.2) := by
              intro hco
              exact hnbNew (Prod.ext_iff.mpr ⟨hco.1, hco.2⟩ ▸ hpL)
            rw [set2_other _ _ _ _ _ hpne]
            exact hinv.labeled p hpL
          · have hpe : p = nb := by simpa using hpR
            subst hpe
            exact set2_same st.lm p lc
        · rw [List.nodup_append]
          refine ⟨hinv.nodup, List.nodup_singleton nb, ?_⟩
          intro a haL haR
          rw [List.mem_singleton] at haR
          subst haR
          exact hnbNew haL
        · intro a b hab
          replace hab : set2 st.lm nb lc a b ≠ lm₀ a b := hab
          by_cases hcnd : a = nb.1 ∧ b = nb.2
          · have habnb : (a, b) = nb := Prod.ext_iff.mpr ⟨hcnd.1, hcnd.2⟩
            refine ⟨List.mem_append_right _ (by simp [habnb]), ?_⟩
            rw [hcnd.1, hcnd.2]
            exact hzero
          · rw [set2_other _ _ _ _ _ hcnd] at hab
            obtain ⟨hm, h0⟩ := hinv.origin a b hab
            exact ⟨List.mem_append_left _ hm, h0⟩
        · intro p hp
          rcases List.mem_append.mp hp with hpL | hpR
          · exact hinv.wasZero p hpL
          · have hpe : p = nb := by simpa using hpR
            subst hpe
            exact hzero
        · intro p hp
          rcases List.mem_append.mp hp with hpL | hpR
          · exact hinv.inGrid p hpL
          · have hpe : p = nb := by simpa using hpR
            subst hpe
            exact hnbGrid
        · have hlt := zeroCount_set_lt rows cols st.lm nb lc hnbGrid.1 hnbGrid.2 hz hlc
          have hb := hinv.bound
          show (st.pushed ++ [nb]).length + zeroCount rows cols (set2 st.lm nb lc) ≤
            rows * cols
          rw [List.length_append, List.length_singleton]
          omega
        · show (st.pushed ++ [nb]).head? = some seed
          rw [hps]
          rfl
        · intro r
          have hflag := hinv.flags r
          rw [hps] at hflag
          simp only [List.drop_one, List.tail_cons] at hflag
          show (if r = nb.1 then true else st.lineFlag r) = true ↔
            r ∈ ((st.pushed ++ [nb]).drop 1).map Prod.fst
          rw [hps]
          have hdrop : ((seed :: tl) ++ [nb]).drop 1 = tl ++ [nb] := by
            simp
          rw [hdrop, List.map_append]
          by_cases hr : r = nb.1
          · simp [hr]
          · simp only [if_neg hr, hflag]
            simp [hr]
      · rw [if_neg ha]
        exact hinv

theorem tryAdmit_foldl_inv (rows cols : ℕ) (adm : Cell → Cell → ℤ × ℤ → Bool)
    (lc : ℤ) (lm₀ : ℕ → ℕ → ℤ) (seed cur : Cell)
    (hlc : lc ≠ LABEL_INIT) (hc : 1 ≤ cols) :
    ∀ (ds : List (ℤ × ℤ)) (st : BfsState),
      BfsInv rows cols lc lm₀ seed st →
      BfsInv rows cols lc lm₀ seed (ds.foldl (tryAdmit rows cols adm lc cur) st)
  | [], _, h => h
  | d :: ds, st, h =>
      tryAdmit_foldl_inv rows cols adm lc lm₀ seed cur hlc hc ds _
        (tryAdmit_inv rows cols adm lc lm₀ seed cur st d hlc hc h)

theorem stepOnce_inv (rows cols : ℕ) (adm : Cell → Cell → ℤ × ℤ → Bool)
    (lc : ℤ) (lm₀ : ℕ → ℕ → ℤ) (seed : Cell) (st : BfsState)
    (hlc : lc ≠ LABEL_INIT) (hc : 1 ≤ cols)
    (hinv : BfsInv rows cols lc lm₀ seed st)
    (hstart : st.start < st.pushed.length) :
    BfsInv rows cols lc lm₀ seed (stepOnce rows cols adm lc st) := by
  have hget : st.pushed[st.start]? = some st.pushed[st.start] :=
    List.getElem?_eq_getElem hstart
  have hcur : st.pushed[st.start] ∈ st.pushed := List.getElem_mem hstart
  simp only [stepOnce, hget]
  apply tryAdmit_foldl_inv rows cols adm lc lm₀ seed _ hlc hc
  refine ⟨?_, hinv.nodup, ?_, hinv.wasZero, hinv.inGrid, ?_, hinv.headSeed, hinv.flags⟩
  · intro p hp
    by_cases hpc : p.1 = st.pushed[st.start].1 ∧ p.2 = st.pushed[st.start].2
    · show set2 st.lm st.pushed[st.start] lc p.1 p.2 = lc
      rw [set2, if_pos hpc]
    · show set2 st.lm st.pushed[st.start] lc p.1 p.2 = lc
      rw [set2_other _ _ _ _ _ hpc]
      exact hinv.labeled p hp
  · intro a b hab
    by_cases hcnd : a = st.pushed[st.start].1 ∧ b = st.pushed[st.start].2
    · refine ⟨?_, ?_⟩
      · have habc : (a, b) = st.pushed[st.start] := Prod.ext_iff.mpr ⟨hcnd.1, hcnd.2⟩
        rw [habc]
        exact hcur
      · rw [hcnd.1, hcnd.2]
        exact hinv.wasZero _ hcur
    · replace hab : set2 st.lm st.pushed[st.start] lc a b ≠ lm₀ a b := hab
      rw [set2_other _ _ _ _ _ hcnd] at hab
      exact hinv.origin a b hab
  · have hle := zeroCount_set_le rows cols st.lm st.pushed[st.start] lc hlc
    have hb := hinv.bound
    show st.pushed.length + zeroCount rows cols (set2 st.lm st.pushed[st.start] lc) ≤
      rows * cols
    omega

theorem bfsRun_inv (rows cols : ℕ) (adm : Cell → Cell → ℤ × ℤ → Bool)
    (lc : ℤ) (lm₀ : ℕ → ℕ → ℤ) (seed : Cell)
    (hlc : lc ≠ LABEL_INIT) (hc : 1 ≤ cols) :
    ∀ (n : ℕ) (st : BfsState), BfsInv rows cols lc lm₀ seed st →
      BfsInv rows cols lc lm₀ seed (bfsRun rows cols adm lc n st)
  | 0, _, h => h
  | n + 1, st, h => by
      simp only [bfsRun]
      split_ifs with hs
      · exact bfsRun_inv rows cols adm lc lm₀ seed hlc hc n _
          (stepOnce_inv rows cols adm lc lm₀ seed st hlc hc h hs)
      · exact h

theorem init_inv (rows cols : ℕ) (adm : Cell → Cell → ℤ × ℤ → Bool)
    (lc : ℤ) (lm₀ : ℕ → ℕ → ℤ) (seed : Cell)
    (hr : seed.1 < rows) (hcseed : seed.2 < cols)
    (h0 : lm₀ seed.1 seed.2 = LABEL_INIT) (hlc : lc ≠ LABEL_INIT) :
    BfsInv rows cols lc lm₀ seed
      (stepOnce rows cols adm lc (BfsState.mk lm₀ [seed] 0 (fun _ => false))) := by
  have hc : 1 ≤ cols := by omega
  have hget : (BfsState.mk lm₀ [seed] 0 (fun _ => false)).pushed[0]? = some seed := rfl
  simp only [stepOnce, hget]
  apply tryAdmit_foldl_inv rows cols adm lc lm₀ seed _ hlc hc
  refine ⟨?_, List.nodup_singleton seed, ?_, ?_, ?_, ?_, rfl, ?_⟩
  · intro p hp
    have hpe : p = seed := by simpa using hp
    subst hpe
    exact set2_same lm₀ p lc
  · intro a b hab
    by_cases hcnd : a = seed.1 ∧ b = seed.2
    · have habs : (a, b) = seed := Prod.ext_iff.mpr ⟨hcnd.1, hcnd.2⟩
      refine ⟨by simp [habs], ?_⟩
      rw [hcnd.1, hcnd.2]
      exact h0
    · replace hab : set2 lm₀ seed lc a b ≠ lm₀ a b := hab
      rw [set2_other _ _ _ _ _ hcnd] at hab
      exact absurd rfl hab
  · intro p hp
    have hpe : p = seed := by simpa using hp
    subst hpe
    exact h0
  · intro p hp
    have hpe : p = seed := by simpa using hp
    subst hpe
    exact ⟨hr, hcseed⟩
  · have hlt := zeroCount_set_lt rows cols lm₀ seed lc hr hcseed h0 hlc
    have hle := zeroCount_le rows cols lm₀
    show [seed].length + zeroCount rows cols (set2 lm₀ seed lc) ≤ rows * cols
    rw [List.length_singleton]
    omega
  · intro r
    simp

theorem labelBfs_inv (rows cols : ℕ) (adm : Cell → Cell → ℤ × ℤ → Bool)
    (lc : ℤ) (lm₀ : ℕ → ℕ → ℤ) (seed : Cell)
    (hr : seed.1 < rows) (hcseed : seed.2 < cols)
    (h0 : lm₀ seed.1 seed.2 = LABEL_INIT) (hlc : lc ≠ LABEL_INIT) :
    BfsInv rows cols lc lm₀ seed (labelBfs rows cols adm lc lm₀ seed) := by
  have hc : 1 ≤ cols := by omega
  obtain ⟨k, hk⟩ : ∃ k, rows * cols = k + 1 := by
    have : 0 < rows * cols := Nat.mul_pos (by omega) (by omega)
    exact ⟨rows * cols - 1, by omega⟩
  rw [labelBfs, hk]
  simp only [bfsRun]
  rw [if_pos (by simp : (0 : ℕ) <
    (BfsState.mk lm₀ [seed] 0 (fun _ => false)).pushed.length)]
  exact bfsRun_inv rows cols adm lc lm₀ seed hlc hc k _
    (init_inv rows cols adm lc lm₀ seed hr hcseed h0 hlc)

theorem tryAdmit_start_eq (rows cols : ℕ) (adm : Cell → Cell → ℤ × ℤ → Bool)
    (lc : ℤ) (cur : Cell) (st : BfsState) (d : ℤ × ℤ) :
    (tryAdmit rows cols adm lc cur st d).start = st.start := by
  rcases hnb : neighborOf rows cols cur d with _ | nb
  · simp only [tryAdmit, hnb]
  · simp only [tryAdmit, hnb]
    split_ifs <;> rfl

theorem tryAdmit_len_le (rows cols : ℕ) (adm : Cell → Cell → ℤ × ℤ → Bool)
    (lc : ℤ) (cur : Cell) (st : BfsState) (d : ℤ × ℤ) :
    st.pushed.length ≤ (tryAdmit rows cols adm lc cur st d).pushed.length := by
  rcases hnb : neighborOf rows cols cur d with _ | nb
  · simp only [tryAdmit, hnb]
    exact le_rfl
  · simp only [tryAdmit, hnb]
    split_ifs
    · exact le_rfl
    · simp
    · exact le_rfl

theorem tryAdmit_foldl_start_len (rows cols : ℕ) (adm : Cell → Cell → ℤ × ℤ → Bool)
    (lc : ℤ) (cur : Cell) :
    ∀ (ds : List (ℤ × ℤ)) (st : BfsState),
      (ds.foldl (tryAdmit rows cols adm lc cur) st).start = st.start ∧
      st.pushed.length ≤ (ds.foldl (tryAdmit rows cols adm lc cur) st).pushed.length
  | [], _ => ⟨rfl, le_rfl⟩
  | d :: ds, st => by
      have ih := tryAdmit_foldl_start_len rows cols adm lc cur ds
        (tryAdmit rows cols adm lc cur st d)
      refine ⟨?_, ?_⟩
      · rw [List.foldl_cons, ih.1, tryAdmit_start_eq]
      · exact le_trans (tryAdmit_len_le rows cols adm lc cur st d) ih.2

theorem stepOnce_start_len (rows cols : ℕ) (adm : Cell → Cell → ℤ × ℤ → Bool)
    (lc : ℤ) (st : BfsState) (hstart : st.start < st.pushed.length) :
    (stepOnce rows cols adm lc st).start = st.start + 1 ∧
    st.pushed.length ≤ (stepOnce rows cols adm lc st).pushed.length := by
  have hget : st.pushed[st.start]? = some st.pushed[st.start] :=
    List.getElem?_eq_getElem hstart
  simp only [stepOnce, hget]
  exact tryAdmit_foldl_start_len rows cols adm lc _ dirs _

theorem bfsRun_drain (rows cols : ℕ) (adm : Cell → Cell → ℤ × ℤ → Bool)
    (lc : ℤ) (lm₀ : ℕ → ℕ → ℤ) (seed : Cell)
    (hlc : lc ≠ LABEL_INIT) (hc : 1 ≤ cols) :
    ∀ (n : ℕ) (st : BfsState), BfsInv rows cols lc lm₀ seed st →
      rows * cols ≤ n + st.start → st.start ≤ st.pushed.length →
      (bfsRun rows cols adm lc n st).pushed.length ≤
        (bfsRun rows cols adm lc n st).start
  | 0, st, hinv, hn, hsl => by
      have hb := hinv.bound
      simp only [bfsRun]
      omega
  | n + 1, st, hinv, hn, hsl => by
      simp only [bfsRun]
      split_ifs with hs
      · have hstep := stepOnce_start_len rows cols adm lc st hs
        exact bfsRun_drain rows cols adm lc lm₀ seed hlc hc n _
          (stepOnce_inv rows cols adm lc lm₀ seed st hlc hc hinv hs)
          (by omega) (by omega)
      · omega

/-- With `rows * cols` fuel the flood-fill queue is always drained: the
fuel-based model runs the source's `while` loop to completion. -/
theorem labelBfs_complete (rows cols : ℕ) (adm : Cell → Cell → ℤ × ℤ → Bool)
    (lc : ℤ) (lm₀ : ℕ → ℕ → ℤ) (seed : Cell)
    (hr : seed.1 < rows) (hcseed : seed.2 < cols)
    (h0 : lm₀ seed.1 seed.2 = LABEL_INIT) (hlc : lc ≠ LABEL_INIT) :
    (labelBfs rows cols adm lc lm₀ seed).pushed.length ≤
      (labelBfs rows cols adm lc lm₀ seed).start := by
  have hc : 1 ≤ cols := by omega
  obtain ⟨k, hk⟩ : ∃ k, rows * cols = k + 1 := by
    have : 0 < rows * cols := Nat.mul_pos (by omega) (by omega)
    exact ⟨rows * cols - 1, by omega⟩
  rw [labelBfs, hk]
  simp only [bfsRun]
  rw [if_pos (by simp : (0 : ℕ) <
    (BfsState.mk lm₀ [seed] 0 (fun _ => false)).pushed.length)]
  have hinv1 : BfsInv rows cols lc lm₀ seed
      (stepOnce rows cols adm lc (BfsState.mk lm₀ [seed] 0 (fun _ => false))) :=
    init_inv rows cols adm lc lm₀ seed hr hcseed h0 hlc
  have hstep := stepOnce_start_len rows cols adm lc
    (BfsState.mk lm₀ [seed] 0 (fun _ => false)) (by simp)
  have h0s : (BfsState.mk lm₀ [seed] 0 (fun _ => false)).start = 0 := rfl
  have h0l : (BfsState.mk lm₀ [seed] 0 (fun _ => false)).pushed.length = 1 := rfl
  exact bfsRun_drain rows cols adm lc lm₀ seed hlc hc k _ hinv1
    (by omega) (by omega)

theorem countP_mem_eq_dedup_length (R : ℕ) (l : List ℕ) (hl : ∀ x ∈ l, x < R) :
    (List.range R).countP (fun i => decide (i ∈ l)) = l.dedup.length := by
  rw [List.countP_eq_length_filter]
  have h1 : ((List.range R).filter (fun i => decide (i ∈ l))).Nodup :=
    (List.nodup_range R).filter _
  have h2 : l.dedup.Nodup := l.nodup_dedup
  have hfs : ((List.range R).filter (fun i => decide (i ∈ l))).toFinset =
      l.dedup.toFinset := by
    ext x
    simp only [List.mem_toFinset, List.mem_filter, List.mem_range,
      decide_eq_true_eq, List.mem_dedup]
    constructor
    · rintro ⟨-, hx⟩
      exact hx
    · intro hx
      exact ⟨hl x hx, hx⟩
  exact (List.perm_of_nodup_nodup_toFinset_eq h1 h2 hfs).length_eq

/-- The code's flagged-line count equals the number of distinct rows
among the non-seed cells of the cluster. -/
theorem flags_countP (rows cols : ℕ) (lc : ℤ) (lm₀ : ℕ → ℕ → ℤ) (seed : Cell)
    (st : BfsState) (hinv : BfsInv rows cols lc lm₀ seed st) :
    (List.range rows).countP (fun i => st.lineFlag i) =
      ((st.pushed.drop 1).map Prod.fst).dedup.length := by
  have hcong : (List.range rows).countP (fun i => st.lineFlag i) =
      (List.range rows).countP
        (fun i => decide (i ∈ (st.pushed.drop 1).map Prod.fst)) := by
    apply List.countP_congr
    intro a _
    rw [hinv.flags a]
    exact (decide_eq_true_iff).symm
  rw [hcong]
  apply countP_mem_eq_dedup_length
  intro x hx
  rw [List.mem_map] at hx
  obtain ⟨p, hp, hpx⟩ := hx
  have hmem : p ∈ st.pushed := List.drop_subset 1 st.pushed hp
  rw [← hpx]
  exact (hinv.inGrid p hmem).1

theorem foldl_setInvalid (l : List Cell) : ∀ (m : ℕ → ℕ → ℤ) (a b : ℕ),
    (l.foldl (fun m p => set2 m p LABEL_INVALID) m) a b =
      if (a, b) ∈ l then LABEL_INVALID else m a b := by
  induction l with
  | nil =>
      intro m a b
      simp
  | cons p t ih =>
      intro m a b
      rw [List.foldl_cons, ih]
      by_cases ht : (a, b) ∈ t
      · simp [ht]
      · simp only [if_neg ht]
        by_cases hp : (a, b) = p
        · have hcnd : a = p.1 ∧ b = p.2 := by
            rw [← hp]
            exact ⟨rfl, rfl⟩
          rw [set2, if_pos hcnd]
          simp [hp]
        · have hcnd : ¬(a = p.1 ∧ b = p.2) := by
            intro hco
            exact hp (Prod.ext_iff.mpr hco)
          rw [set2_other _ _ _ _ _ hcnd]
          simp [List.mem_cons, hp, ht]

/-!
## C7: the BFS work arrays never exceed rows*cols entries
-/

/-- Claim C7: in every flood fill, only still-unlabeled cells are ever
enqueued and each cell is enqueued at most once (the pushed list has no
duplicates), so the number of cells ever pushed onto the work
queue/bookkeeping arrays never exceeds `rows * cols` — every index used
in the pre-sized arrays stays below their capacity, and a bound
violation is impossible. -/
theorem labelComponents_queue_bound (rows cols : ℕ) (rm : ℕ → ℕ → ℝ)
    (alphaX alphaY theta : ℝ) (lc : ℤ) (lm₀ : ℕ → ℕ → ℤ) (r c : ℕ)
    (hr : r < rows) (hc : c < cols) (h0 : lm₀ r c = LABEL_INIT)
    (hlc : lc ≠ LABEL_INIT) :
    (labelBfs rows cols (admitOf rm alphaX alphaY theta) lc lm₀ (r, c)).pushed.length
        ≤ rows * cols ∧
    (labelBfs rows cols (admitOf rm alphaX alphaY theta) lc lm₀ (r, c)).pushed.Nodup ∧
    (∀ p ∈ (labelBfs rows cols (admitOf rm alphaX alphaY theta) lc lm₀ (r, c)).pushed,
      lm₀ p.1 p.2 = LABEL_INIT) := by
  have hinv := labelBfs_inv rows cols (admitOf rm alphaX alphaY theta) lc lm₀ (r, c)
    hr hc h0 hlc
  refine ⟨?_, hinv.nodup, hinv.wasZero⟩
  have hb := hinv.bound
  omega

/-- Witness for C7 on a 1x1 grid. -/
theorem labelComponents_queue_bound_witness :
    (0 : ℕ) < 1 ∧ (0 : ℕ) < 1 ∧ (fun _ _ => (0 : ℤ)) 0 0 = LABEL_INIT ∧
    (1 : ℤ) ≠ LABEL_INIT ∧
    ((labelBfs 1 1 (admitOf (fun _ _ => 1) 0 0 0) 1 (fun _ _ => 0) (0, 0)).pushed.length
        ≤ 1 * 1 ∧
      (labelBfs 1 1 (admitOf (fun _ _ => 1) 0 0 0) 1 (fun _ _ => 0) (0, 0)).pushed.Nodup ∧
      (∀ p ∈ (labelBfs 1 1 (admitOf (fun _ _ => 1) 0 0 0) 1 (fun _ _ => 0) (0, 0)).pushed,
        (fun _ _ => (0 : ℤ)) p.1 p.2 = LABEL_INIT)) :=
  ⟨Nat.one_pos, Nat.one_pos, rfl, by decide,
   labelComponents_queue_bound 1 1 (fun _ _ => 1) 0 0 0 1 (fun _ _ => 0) 0 0
     Nat.one_pos Nat.one_pos rfl (by decide)⟩

/-!
## C1: cluster acceptance and its effects
-/

/-- Claim C1 (amended): a flood fill's cluster is accepted exactly when
it has at least 30 cells, or at least `segmentValidPointNum` cells
spread over at least `segmentValidLineNum` distinct rows *among the
cells admitted as neighbors* (the seed's own row counts only when some
other cluster cell shares it); on acceptance every cluster cell keeps
the current segment id and the counter is incremented by exactly one,
and on rejection every visited cell — the seed included — ends with the
`LABEL_INVALID` sentinel. -/
theorem labelComponents_cluster_acceptance (rows cols : ℕ) (rm : ℕ → ℕ → ℝ)
    (alphaX alphaY theta : ℝ) (vpn vln : ℕ) (lm₀ : ℕ → ℕ → ℤ) (lc : ℤ) (r c : ℕ)
    (hr : r < rows) (hc : c < cols) (h0 : lm₀ r c = LABEL_INIT) (hlc : 1 ≤ lc) :
    (r, c) ∈ (labelBfs rows cols (admitOf rm alphaX alphaY theta) lc lm₀ (r, c)).pushed ∧
    ((labelComponents rows cols (admitOf rm alphaX alphaY theta) vpn vln lm₀ lc
        (r, c)).2 = lc + 1 ↔
      (30 ≤ (labelBfs rows cols (admitOf rm alphaX alphaY theta) lc lm₀
          (r, c)).pushed.length ∨
        (vpn ≤ (labelBfs rows cols (admitOf rm alphaX alphaY theta) lc lm₀
            (r, c)).pushed.length ∧
          vln ≤ (((labelBfs rows cols (admitOf rm alphaX alphaY theta) lc lm₀
            (r, c)).pushed.drop 1).map Prod.fst).dedup.length))) ∧
    ((labelComponents rows cols (admitOf rm alphaX alphaY theta) vpn vln lm₀ lc
        (r, c)).2 = lc + 1 →
      (labelComponents rows cols (admitOf rm alphaX alphaY theta) vpn vln lm₀ lc
          (r, c)).1 =
        (labelBfs rows cols (admitOf rm alphaX alphaY theta) lc lm₀ (r, c)).lm ∧
      ∀ p ∈ (labelBfs rows cols (admitOf rm alphaX alphaY theta) lc lm₀
          (r, c)).pushed,
        (labelBfs rows cols (admitOf rm alphaX alphaY theta) lc lm₀ (r, c)).lm
          p.1 p.2 = lc) ∧
    ((labelComponents rows cols (admitOf rm alphaX alphaY theta) vpn vln lm₀ lc
        (r, c)).2 = lc →
      ∀ p ∈ (labelBfs rows cols (admitOf rm alphaX alphaY theta) lc lm₀
          (r, c)).pushed,
        (labelComponents rows cols (admitOf rm alphaX alphaY theta) vpn vln lm₀ lc
            (r, c)).1 p.1 p.2 = LABEL_INVALID) ∧
    ((labelComponents rows cols (admitOf rm alphaX alphaY theta) vpn vln lm₀ lc
        (r, c)).2 = lc + 1 ∨
      (labelComponents rows cols (admitOf rm alphaX alphaY theta) vpn vln lm₀ lc
        (r, c)).2 = lc) := by
  have hlcne : lc ≠ LABEL_INIT := by
    rw [LABEL_INIT]
    omega
  have hinv := labelBfs_inv rows cols (admitOf rm alphaX alphaY theta) lc lm₀ (r, c)
    hr hc h0 hlcne
  have hseedmem : (r, c) ∈
      (labelBfs rows cols (admitOf rm alphaX alphaY theta) lc lm₀ (r, c)).pushed :=
    List.mem_of_mem_head? (by rw [hinv.headSeed]; rfl)
  have hline := flags_countP rows cols lc lm₀ (r, c) _ hinv
  by_cases hf : 30 ≤ (labelBfs rows cols (admitOf rm alphaX alphaY theta) lc lm₀
      (r, c)).pushed.length ∨
    (vpn ≤ (labelBfs rows cols (admitOf rm alphaX alphaY theta) lc lm₀
        (r, c)).pushed.length ∧
      vln ≤ (List.range rows).countP
        (fun i => (labelBfs rows cols (admitOf rm alphaX alphaY theta) lc lm₀
          (r, c)).lineFlag i))
  · have hres : labelComponents rows cols (admitOf rm alphaX alphaY theta) vpn vln
        lm₀ lc (r, c) =
        ((labelBfs rows cols (admitOf rm alphaX alphaY theta) lc lm₀ (r, c)).lm,
          lc + 1) := by
      simp only [labelComponents]
      rw [if_pos hf]
    rw [hres]
    refine ⟨hseedmem, ?_, ?_, ?_, ?_⟩
    · constructor
      · intro _
        rw [← hline]
        exact hf
      · intro _
        rfl
    · intro _
      exact ⟨rfl, hinv.labeled⟩
    · intro habs
      exfalso
      omega
    · left
      rfl
  · have hres : labelComponents rows cols (admitOf rm alphaX alphaY theta) vpn vln
        lm₀ lc (r, c) =
        ((labelBfs rows cols (admitOf rm alphaX alphaY theta) lc lm₀
            (r, c)).pushed.foldl (fun m p => set2 m p LABEL_INVALID)
          (labelBfs rows cols (admitOf rm alphaX alphaY theta) lc lm₀ (r, c)).lm,
          lc) := by
      simp only [labelComponents]
      rw [if_neg hf]
    rw [hres]
    refine ⟨hseedmem, ?_, ?_, ?_, ?_⟩
    · constructor
      · intro habs
        exfalso
        omega
      · intro hcrit
        exfalso
        apply hf
        rw [hline]
        exact hcrit
    · intro habs
      exfalso
      omega
    · intro _ p hp
      show (labelBfs rows cols (admitOf rm alphaX alphaY theta) lc lm₀
          (r, c)).pushed.foldl (fun m q => set2 m q LABEL_INVALID)
          (labelBfs rows cols (admitOf rm alphaX alphaY theta) lc lm₀ (r, c)).lm
          p.1 p.2 = LABEL_INVALID
      rw [foldl_setInvalid]
      rw [if_pos (by simpa using hp)]
    · right
      rfl

/-- Witness for C1 on a 1x1 grid. -/
theorem labelComponents_cluster_acceptance_witness :
    (0 : ℕ) < 1 ∧ (0 : ℕ) < 1 ∧ (fun _ _ => (0 : ℤ)) 0 0 = LABEL_INIT ∧
    (1 : ℤ) ≤ 1 ∧
    (0, 0) ∈ (labelBfs 1 1 (admitOf (fun _ _ => 1) 0 0 0) 1 (fun _ _ => 0)
      (0, 0)).pushed ∧
    ((labelComponents 1 1 (admitOf (fun _ _ => 1) 0 0 0) 5 3 (fun _ _ => 0) 1
        (0, 0)).2 = 1 + 1 ↔
      (30 ≤ (labelBfs 1 1 (admitOf (fun _ _ => 1) 0 0 0) 1 (fun _ _ => 0)
          (0, 0)).pushed.length ∨
        (5 ≤ (labelBfs 1 1 (admitOf (fun _ _ => 1) 0 0 0) 1 (fun _ _ => 0)
            (0, 0)).pushed.length ∧
          3 ≤ (((labelBfs 1 1 (admitOf (fun _ _ => 1) 0 0 0) 1 (fun _ _ => 0)
            (0, 0)).pushed.drop 1).map Prod.fst).dedup.length))) := by
  have h := labelComponents_cluster_acceptance 1 1 (fun _ _ => 1) 0 0 0 5 3
    (fun _ _ => 0) 1 0 0 Nat.one_pos Nat.one_pos rfl le_rfl
  exact ⟨Nat.one_pos, Nat.one_pos, rfl, le_rfl, h.1, h.2.1⟩

/-!
## C3: every unvisited cell is resolved by `CloudSegmentation`
-/

/-- One completed `LabelComponents` call: the counter stays at least 1,
the seed cell ends strictly positive, and any changed cell was
unlabeled before the fill and ends strictly positive (a fresh segment
id or the `LABEL_INVALID` sentinel). -/
theorem ne_init_of_pos {x : ℤ} (h : 0 < x) : x ≠ LABEL_INIT := by
  rw [LABEL_INIT]
  omega

theorem labelComponents_fill_summary (rows cols : ℕ)
    (adm : Cell → Cell → ℤ × ℤ → Bool) (vpn vln : ℕ) (lm₀ : ℕ → ℕ → ℤ)
    (lc : ℤ) (seed : Cell) (hr : seed.1 < rows) (hcs : seed.2 < cols)
    (h0 : lm₀ seed.1 seed.2 = LABEL_INIT) (hlc : 1 ≤ lc) :
    1 ≤ (labelComponents rows cols adm vpn vln lm₀ lc seed).2 ∧
    0 < (labelComponents rows cols adm vpn vln lm₀ lc seed).1 seed.1 seed.2 ∧
    (∀ a b, (labelComponents rows cols adm vpn vln lm₀ lc seed).1 a b ≠ lm₀ a b →
      lm₀ a b = LABEL_INIT ∧
      0 < (labelComponents rows cols adm vpn vln lm₀ lc seed).1 a b) := by
  have hlcne : lc ≠ LABEL_INIT := by
    rw [LABEL_INIT]
    omega
  have hinv := labelBfs_inv rows cols adm lc lm₀ seed hr hcs h0 hlcne
  have hseedmem : seed ∈ (labelBfs rows cols adm lc lm₀ seed).pushed :=
    List.mem_of_mem_head? (by rw [hinv.headSeed]; rfl)
  by_cases hf : 30 ≤ (labelBfs rows cols adm lc lm₀ seed).pushed.length ∨
    (vpn ≤ (labelBfs rows cols adm lc lm₀ seed).pushed.length ∧
      vln ≤ (List.range rows).countP
        (fun i => (labelBfs rows cols adm lc lm₀ seed).lineFlag i))
  · have hres : labelComponents rows cols adm vpn vln lm₀ lc seed =
        ((labelBfs rows cols adm lc lm₀ seed).lm, lc + 1) := by
      simp only [labelComponents]
      rw [if_pos hf]
    rw [hres]
    refine ⟨by omega, ?_, ?_⟩
    · show 0 < (labelBfs rows cols adm lc lm₀ seed).lm seed.1 seed.2
      rw [hinv.labeled seed hseedmem]
      omega
    · intro a b hab
      obtain ⟨hm, hz⟩ := hinv.origin a b hab
      refine ⟨hz, ?_⟩
      show 0 < (labelBfs rows cols adm lc lm₀ seed).lm a b
      rw [hinv.labeled (a, b) hm]
      omega
  · have hres : labelComponents rows cols adm vpn vln lm₀ lc seed =
        ((labelBfs rows cols adm lc lm₀ seed).pushed.foldl
          (fun m p => set2 m p LABEL_INVALID)
          (labelBfs rows cols adm lc lm₀ seed).lm, lc) := by
      simp only [labelComponents]
      rw [if_neg hf]
    rw [hres]
    refine ⟨by omega, ?_, ?_⟩
    · show 0 < (labelBfs rows cols adm lc lm₀ seed).pushed.foldl
        (fun m q => set2 m q LABEL_INVALID)
        (labelBfs rows cols adm lc lm₀ seed).lm seed.1 seed.2
      rw [foldl_setInvalid, if_pos (by simpa using hseedmem)]
      rw [LABEL_INVALID]
      omega
    · intro a b hab
      replace hab : (labelBfs rows cols adm lc lm₀ seed).pushed.foldl
          (fun m q => set2 m q LABEL_INVALID)
          (labelBfs rows cols adm lc lm₀ seed).lm a b ≠ lm₀ a b := hab
      rw [foldl_setInvalid] at hab
      show lm₀ a b = LABEL_INIT ∧
        0 < (labelBfs rows cols adm lc lm₀ seed).pushed.foldl
          (fun m q => set2 m q LABEL_INVALID)
          (labelBfs rows cols adm lc lm₀ seed).lm a b
      rw [foldl_setInvalid]
      by_cases hmem : (a, b) ∈ (labelBfs rows cols adm lc lm₀ seed).pushed
      · rw [if_pos hmem]
        refine ⟨hinv.wasZero (a, b) hmem, ?_⟩
        rw [LABEL_INVALID]
        omega
      · rw [if_neg hmem] at hab
        obtain ⟨hm, -⟩ := hinv.origin a b hab
        exact absurd hm hmem

theorem cellsOf_mem {rows cols : ℕ} {ij : Cell} :
    ij ∈ cellsOf rows cols ↔ ij.1 < rows ∧ ij.2 < cols := by
  obtain ⟨i, j⟩ := ij
  simp only [cellsOf, List.mem_flatten, List.mem_map]
  constructor
  · rintro ⟨l, ⟨i', hi', rfl⟩, hmem⟩
    rw [List.mem_map] at hmem
    obtain ⟨j', hj', hje⟩ := hmem
    rw [Prod.mk.injEq] at hje
    obtain ⟨h1, h2⟩ := hje
    subst h1
    subst h2
    exact ⟨List.mem_range.mp hi', List.mem_range.mp hj'⟩
  · rintro ⟨hi, hj⟩
    exact ⟨(List.range cols).map (fun j' => (i, j')),
      ⟨i, List.mem_range.mpr hi, rfl⟩,
      List.mem_map.mpr ⟨j, List.mem_range.mpr hj, rfl⟩⟩

/-- The row-major seeding scan: the final counter stays at least 1,
cells only change from unlabeled to strictly positive, and every
scanned cell ends non-unlabeled. -/
theorem segScan_summary (rows cols : ℕ) (adm : Cell → Cell → ℤ × ℤ → Bool)
    (vpn vln : ℕ) :
    ∀ (cells : List Cell) (lm : ℕ → ℕ → ℤ) (lc : ℤ), 1 ≤ lc →
      (∀ ij ∈ cells, ij.1 < rows ∧ ij.2 < cols) →
      1 ≤ (cells.foldl (fun acc ij =>
          if acc.1 ij.1 ij.2 = LABEL_INIT then
            labelComponents rows cols adm vpn vln acc.1 acc.2 ij
          else acc) (lm, lc)).2 ∧
      (∀ a b, (cells.foldl (fun acc ij =>
          if acc.1 ij.1 ij.2 = LABEL_INIT then
            labelComponents rows cols adm vpn vln acc.1 acc.2 ij
          else acc) (lm, lc)).1 a b ≠ lm a b →
        lm a b = LABEL_INIT ∧
        0 < (cells.foldl (fun acc ij =>
          if acc.1 ij.1 ij.2 = LABEL_INIT then
            labelComponents rows cols adm vpn vln acc.1 acc.2 ij
          else acc) (lm, lc)).1 a b) ∧
      (∀ ij ∈ cells, (cells.foldl (fun acc ij =>
          if acc.1 ij.1 ij.2 = LABEL_INIT then
            labelComponents rows cols adm vpn vln acc.1 acc.2 ij
          else acc) (lm, lc)).1 ij.1 ij.2 ≠ LABEL_INIT)
  | [], lm, lc, hlc, _ => by
      refine ⟨hlc, ?_, ?_⟩
      · intro a b hab
        exact absurd rfl hab
      · intro ij hij
        exact absurd hij (List.not_mem_nil ij)
  | ij₀ :: rest, lm, lc, hlc, hgrid => by
      have hgrid0 := hgrid ij₀ (List.mem_cons_self ij₀ rest)
      have hgridr : ∀ ij ∈ rest, ij.1 < rows ∧ ij.2 < cols := fun ij hij =>
        hgrid ij (List.mem_cons_of_mem ij₀ hij)
      simp only [List.foldl_cons]
      by_cases hz : lm ij₀.1 ij₀.2 = LABEL_INIT
      · rw [if_pos hz]
        have hsum := labelComponents_fill_summary rows cols adm vpn vln lm lc ij₀
          hgrid0.1 hgrid0.2 hz hlc
        have ih := segScan_summary rows cols adm vpn vln rest
          (labelComponents rows cols adm vpn vln lm lc ij₀).1
          (labelComponents rows cols adm vpn vln lm lc ij₀).2 hsum.1 hgridr
        refine ⟨ih.1, ?_, ?_⟩
        · intro a b hab
          by_cases h1 : (rest.foldl (fun acc ij =>
              if acc.1 ij.1 ij.2 = LABEL_INIT then
                labelComponents rows cols adm vpn vln acc.1 acc.2 ij
              else acc) ((labelComponents rows cols adm vpn vln lm lc ij₀).1,
                (labelComponents rows cols adm vpn vln lm lc ij₀).2)).1 a b =
              (labelComponents rows cols adm vpn vln lm lc ij₀).1 a b
          · rw [h1] at hab ⊢
            exact hsum.2.2 a b hab
          · obtain ⟨hmid, hpos⟩ := ih.2.1 a b h1
            refine ⟨?_, hpos⟩
            by_cases h2 : (labelComponents rows cols adm vpn vln lm lc ij₀).1 a b =
                lm a b
            · rw [← h2]
              exact hmid
            · exact (hsum.2.2 a b h2).1
        · intro ij hij
          rcases List.mem_cons.mp hij with hij0 | hijr
          · subst hij0
            by_cases h1 : (rest.foldl (fun acc ij =>
                if acc.1 ij.1 ij.2 = LABEL_INIT then
                  labelComponents rows cols adm vpn vln acc.1 acc.2 ij
                else acc) ((labelComponents rows cols adm vpn vln lm lc ij).1,
                  (labelComponents rows cols adm vpn vln lm lc ij).2)).1 ij.1 ij.2 =
                (labelComponents rows cols adm vpn vln lm lc ij).1 ij.1 ij.2
            · rw [h1]
              exact ne_init_of_pos hsum.2.1
            · exact ne_init_of_pos (ih.2.1 ij.1 ij.2 h1).2
          · exact ih.2.2 ij hijr
      · rw [if_neg hz]
        have ih := segScan_summary rows cols adm vpn vln rest lm lc hlc hgridr
        refine ⟨ih.1, ih.2.1, ?_⟩
        intro ij hij
        rcases List.mem_cons.mp hij with hij0 | hijr
        · subst hij0
          by_cases h1 : (rest.foldl (fun acc ij =>
              if acc.1 ij.1 ij.2 = LABEL_INIT then
                labelComponents rows cols adm vpn vln acc.1 acc.2 ij
              else acc) (lm, lc)).1 ij.1 ij.2 = lm ij.1 ij.2
          · rw [h1]
            exact hz
          · exact ne_init_of_pos (ih.2.1 ij.1 ij.2 h1).2
        · exact ih.2.2 ij hijr

/-- Claim C3: after `CloudSegmentation`, no in-grid cell of the label
map still holds the unvisited value 0: every cell that was 0 when
segmentation began is now strictly positive (a segment id or the
`LABEL_INVALID` sentinel), and cells pre-marked otherwise (ground/empty
`-1`) are untouched. -/
theorem cloudSegmentation_no_unvisited (cfg : Config) (s : FrameState)
    (hlc : 1 ≤ s.labelCount) :
    ∀ i j, i < cfg.nScan → j < cfg.horizonScan →
      (cloudSegmentation cfg s).labelMat i j ≠ LABEL_INIT ∧
      (s.labelMat i j = LABEL_INIT → 0 < (cloudSegmentation cfg s).labelMat i j) ∧
      (s.labelMat i j ≠ LABEL_INIT →
        (cloudSegmentation cfg s).labelMat i j = s.labelMat i j) := by
  have hscan := segScan_summary cfg.nScan cfg.horizonScan
    (admitOf s.rangeMat cfg.segmentAlphaX cfg.segmentAlphaY cfg.segmentTheta)
    cfg.segmentValidPointNum cfg.segmentValidLineNum
    (cellsOf cfg.nScan cfg.horizonScan) s.labelMat s.labelCount hlc
    (fun ij hij => cellsOf_mem.mp hij)
  intro i j hi hj
  have hmem : (i, j) ∈ cellsOf cfg.nScan cfg.horizonScan :=
    cellsOf_mem.mpr ⟨hi, hj⟩
  refine ⟨hscan.2.2 (i, j) hmem, ?_, ?_⟩
  · intro h0
    by_cases hch : (cloudSegmentation cfg s).labelMat i j = s.labelMat i j
    · exfalso
      exact hscan.2.2 (i, j) hmem (hch.trans h0)
    · exact (hscan.2.1 i j hch).2
  · intro hne
    by_contra hch
    exact hne (hscan.2.1 i j hch).1

/-- Witness for C3 on a fresh frame with the 2-row, 4-column
configuration. -/
theorem cloudSegmentation_no_unvisited_witness :
    (1 : ℤ) ≤ frame0.labelCount ∧
    (∀ i j, i < cfgKeep.nScan → j < cfgKeep.horizonScan →
      (cloudSegmentation cfgKeep frame0).labelMat i j ≠ LABEL_INIT ∧
      (frame0.labelMat i j = LABEL_INIT →
        0 < (cloudSegmentation cfgKeep frame0).labelMat i j) ∧
      (frame0.labelMat i j ≠ LABEL_INIT →
        (cloudSegmentation cfgKeep frame0).labelMat i j = frame0.labelMat i j)) :=
  ⟨le_refl 1, cloudSegmentation_no_unvisited cfgKeep frame0 (le_refl 1)⟩

/-!
## C1 counterexample: the flagged-line count can miss the seed's row

On a 3x2 grid with ranges 1 everywhere except 1000 at cell (1,1),
horizontal and vertical increments `π/2` and threshold `arctan(1/2)`,
the fill seeded at (1,0) collects the five cells (1,0), (0,0), (2,0),
(0,1), (2,1) — three distinct rows — but flags only rows 0 and 2, so
with `segmentValidPointNum = 5` and `segmentValidLineNum = 3` the
cluster is rejected even though it has ≥ 5 cells on ≥ 3 distinct rows.
-/

/-- Counterexample range image: 1000 at (1,1), 1 elsewhere. -/
noncomputable def cexRm : ℕ → ℕ → ℝ := fun i j => if i = 1 ∧ j = 1 then 1000 else 1

/-- The source's admission test at the counterexample configuration. -/
noncomputable def cexAdmit : Cell → Cell → ℤ × ℤ → Bool :=
  admitOf cexRm (π / 2) (π / 2) (Real.arctan (1 / 2))

/-- The same test, evaluated: with `alpha = π/2` and threshold
`arctan(1/2)` the angular test reduces to `max < 2 * min` on the two
ranges. -/
def cexAdmitQ : Cell → Cell → ℤ × ℤ → Bool :=
  fun cur nb _ =>
    decide (max (if cur.1 = 1 ∧ cur.2 = 1 then (1000 : ℤ) else 1)
        (if nb.1 = 1 ∧ nb.2 = 1 then (1000 : ℤ) else 1) <
      2 * min (if cur.1 = 1 ∧ cur.2 = 1 then (1000 : ℤ) else 1)
        (if nb.1 = 1 ∧ nb.2 = 1 then (1000 : ℤ) else 1))

theorem arctanHalf_iff (x y : ℝ) (hx : 0 < x) (_hy : 0 < y) :
    (Real.arctan (1 / 2) < atan2 (min x y * Real.sin (π / 2))
      (max x y - min x y * Real.cos (π / 2))) ↔ max x y < 2 * min x y := by
  rw [Real.sin_pi_div_two, Real.cos_pi_div_two, mul_one, mul_zero, sub_zero]
  have hmax : 0 < max x y := lt_of_lt_of_le hx (le_max_left x y)
  rw [atan2_of_pos _ _ hmax]
  rw [Real.arctan_strictMono.lt_iff_lt]
  rw [lt_div_iff₀ hmax]
  constructor
  · intro h
    nlinarith
  · intro h
    nlinarith

theorem cexAdmit_eq : cexAdmit = cexAdmitQ := by
  funext cur nb d
  have hx : (0 : ℝ) < cexRm cur.1 cur.2 := by
    rw [cexRm]
    split_ifs <;> norm_num
  have hy : (0 : ℝ) < cexRm nb.1 nb.2 := by
    rw [cexRm]
    split_ifs <;> norm_num
  show admitOf cexRm (π / 2) (π / 2) (Real.arctan (1 / 2)) cur nb d = cexAdmitQ cur nb d
  rw [admitOf, cexAdmitQ]
  rw [ite_self]
  rw [decide_eq_decide]
  rw [arctanHalf_iff _ _ hx hy]
  by_cases h1 : cur.1 = 1 ∧ cur.2 = 1 <;> by_cases h2 : nb.1 = 1 ∧ nb.2 = 1 <;>
    simp only [cexRm, if_pos, if_neg, h1, h2, ite_true, ite_false] <;>
    norm_num [max_def, min_def]

/-- Counterexample to C1 as stated: the fill below collects a cluster
of 5 = `segmentValidPointNum` cells spanning 3 = `segmentValidLineNum`
distinct rows, yet it is rejected — the label counter stays 1 and the
seed (1,0) ends with `LABEL_INVALID` instead of keeping a positive
segment id — because the flagged-line count skips the seed's row. -/
theorem labelComponents_linecount_counterexample :
    5 ≤ (labelBfs 3 2 cexAdmit 1 (fun _ _ => 0) (1, 0)).pushed.length ∧
    3 ≤ (((labelBfs 3 2 cexAdmit 1 (fun _ _ => 0) (1, 0)).pushed.map
      Prod.fst).dedup.length) ∧
    (labelComponents 3 2 cexAdmit 5 3 (fun _ _ => 0) 1 (1, 0)).2 = 1 ∧
    (labelComponents 3 2 cexAdmit 5 3 (fun _ _ => 0) 1 (1, 0)).1 1 0 =
      LABEL_INVALID := by
  rw [cexAdmit_eq]
  decide

end ApolloLegoLoam
